import Mathlib

/-! # LibraDB: the transaction layer (tx.go, db.go)

A shallow embedding of `tx.go` and `db.go`.  Go pointers become explicit
state passing: a `tx` value is the transaction struct, a `DB` value is the
database handle it points to, and every operation returns the new values.

The data access layer (`dal`, embedded in `DB`), the freelist, `Node`,
`Collection` and the B-tree algorithms are not part of the two source files.
Their state and operations are modelled from the specification and are marked
as such; the tree algorithms are taken as a parameter (`CollectionOps`), with
two instances to run the code on: a tree of one node (`leafOps`) and a B-tree
whose nodes split (`treeOps`).

Besides its real fields, `DB` carries a ghost log `calls` of the operations
issued to the lock, the allocator and the node store, so that statements such
as "exactly once" and "in order" can be expressed.
-/

namespace LibraDB

/-- Page number: an unsigned integer identifying a page of the backing file. -/
abbrev pgnum := Nat

/-- Error values returned by the operations. `writeInsideReadTxErr` is the
package-level sentinel used by tx.go; the two others are the node store's
failures named by the specification. -/
inductive Err where
  | writeInsideReadTxErr
  | DecodeError
  | IOError (code : Nat)
  deriving DecidableEq

/-- Key/value pair; byte strings are lists of numbers. -/
structure Item where
  key : List Nat
  value : List Nat
  deriving DecidableEq

/-- In-memory node. The field `tx` is the back-reference to the owning
transaction; a transaction is identified by the number `tx.id`, which stands
for the address of the Go struct. -/
structure Node where
  items : List Item
  childNodes : List pgnum
  pageNum : pgnum
  tx : Option Nat
  deriving DecidableEq

/-- Modelled from the spec: `NewEmptyNode` (node.go is missing), a node with
no items, no children, page number 0 ("not yet assigned") and no owner. -/
def NewEmptyNode : Node :=
  { items := [], childNodes := [], pageNum := 0, tx := none }

/-- Named B-tree: name, root page and back-reference to the transaction. -/
structure Collection where
  name : List Nat
  root : pgnum
  tx : Option Nat
  deriving DecidableEq

/-- Modelled from the spec: `newEmptyCollection` (collection.go is missing),
an unbound collection. -/
def newEmptyCollection : Collection :=
  { name := [], root := 0, tx := none }

/-- Modelled from the spec: the freelist (freelist.go is missing): the
counter of the highest page number handed out so far and the released pages,
most recently released first. -/
structure freelist where
  maxPage : pgnum
  releasedPages : List pgnum
  deriving DecidableEq

/-- Modelled from the spec: `freelist.getNextPage` reuses a released page when
there is one (the specification does not say which; the model takes the most
recently released) and otherwise the next never-used page number. -/
def freelist.getNextPage (fr : freelist) : pgnum × freelist :=
  match fr.releasedPages with
  | p :: rest => (p, { fr with releasedPages := rest })
  | [] => (fr.maxPage + 1, { fr with maxPage := fr.maxPage + 1 })

/-- Modelled from the spec: `freelist.releasePage` returns the page to the
free set. -/
def freelist.releasePage (fr : freelist) (page : pgnum) : freelist :=
  { fr with releasedPages := page :: fr.releasedPages }

/-- The lock `rwlock` of the database handle. tx.go releases it with both
`Unlock` and `RUnlock`, so the model keeps a writer bit and a reader count. -/
structure RWMutex where
  w : Bool
  r : Nat
  deriving DecidableEq

/-- Ghost log entry: one operation issued to the lock, the allocator or the
node store. `writeNode` records the node as passed by the caller and the
outcome of the write; `writeFreelist` records the outcome. -/
inductive Call where
  | Lock
  | Unlock
  | RUnlock
  | getNextPage (p : pgnum)
  | releasePage (p : pgnum)
  | getNode (p : pgnum)
  | writeNode (n : Node) (err : Option Err)
  | deleteNode (p : pgnum)
  | writeFreelist (err : Option Err)
  deriving DecidableEq

/-- The database handle of db.go with the embedded `dal` flattened into it.
* `rwlock`: the lock; `fatal` is set when the Go runtime aborts the process
  because a lock that is not held is released.
* `pages`, `freelist`, `freelistDisk`, `root`: modelled from the spec, the
  node store's persisted pages, the allocator, the persisted form of the
  allocator and the visible root page.
* `faults`: the outcomes of the coming page writes of the storage, first one
  first (`none` is success); once the list is used up writes succeed.
* `calls`: ghost log. -/
structure DB where
  rwlock : RWMutex
  fatal : Bool
  pages : pgnum → Option Node
  freelistDisk : Option freelist
  freelist : freelist
  root : pgnum
  faults : List (Option Err)
  calls : List Call

/-- Append an entry to the ghost log. -/
def DB.log (db : DB) (c : Call) : DB :=
  { db with calls := db.calls ++ [c] }

/-- Go's `Lock` as a guarded step: `none` when the caller would block. -/
def DB.Lock (db : DB) : Option DB :=
  if db.rwlock.w = false ∧ db.rwlock.r = 0 then
    some ({ db with rwlock := { db.rwlock with w := true } }.log Call.Lock)
  else none

/-- Go's `Unlock`: clears the writer bit; releasing a lock that is not
write-locked is a fatal runtime error. -/
def DB.Unlock (db : DB) : DB :=
  if db.rwlock.w then
    { db with rwlock := { db.rwlock with w := false } }.log Call.Unlock
  else
    { db with fatal := true }.log Call.Unlock

/-- Go's `RUnlock`: drops one reader; with no reader it is a fatal runtime
error. -/
def DB.RUnlock (db : DB) : DB :=
  if 0 < db.rwlock.r then
    { db with rwlock := { db.rwlock with r := db.rwlock.r - 1 } }.log Call.RUnlock
  else
    { db with fatal := true }.log Call.RUnlock

/-- Modelled from the spec: `dal.getNextPage`, the allocator's `getNextPage`
reached through the embedded dal. -/
def DB.getNextPage (db : DB) : pgnum × DB :=
  let r := db.freelist.getNextPage
  (r.1, { db with freelist := r.2 }.log (Call.getNextPage r.1))

/-- Modelled from the spec: `tx.db.freelist.releasePage`, with the call
logged. -/
def DB.releasePage (db : DB) (page : pgnum) : DB :=
  { db with freelist := db.freelist.releasePage page }.log (Call.releasePage page)

/-- Modelled from the spec: `dal.getNode` reads and decodes the page; fails
with `DecodeError` when the page does not hold a valid node. -/
def DB.getNode (db : DB) (pageNum : pgnum) : Except Err Node × DB :=
  match db.pages pageNum with
  | some n => (.ok n, db.log (Call.getNode pageNum))
  | none => (.error Err.DecodeError, db.log (Call.getNode pageNum))

/-- The outcome of the next page write of the storage. -/
def DB.nextFault (db : DB) : Option Err × DB :=
  match db.faults with
  | [] => (none, db)
  | e :: rest => (e, { db with faults := rest })

/-- Modelled from the spec: `dal.writeNode` "allocates/reuses the node's page
slot on disk and serializes it; fails on write failure". A node with page
number 0 gets a page from the allocator; the back-reference `tx` is not part
of the persisted form. Returns the persisted node. -/
def DB.writeNode (db : DB) (n : Node) : Except Err Node × DB :=
  let slot := if n.pageNum = 0 then db.getNextPage else (n.pageNum, db)
  let persisted : Node := { n with pageNum := slot.1, tx := none }
  let io := slot.2.nextFault
  match io.1 with
  | some err => (.error err, io.2.log (Call.writeNode n (some err)))
  | none =>
    (.ok persisted,
      { io.2 with pages := Function.update io.2.pages slot.1 (some persisted) }.log
        (Call.writeNode n none))

/-- Modelled from the spec: `dal.deleteNode` "marks the page reclaimable;
delegates to the Allocator". -/
def DB.deleteNode (db : DB) (pageNum : pgnum) : DB :=
  (db.log (Call.deleteNode pageNum)).releasePage pageNum

/-- Modelled from the spec: `dal.writeFreelist` "serializes and persists the
Allocator's current state"; fails on write failure. -/
def DB.writeFreelist (db : DB) : Option Err × DB :=
  let io := db.nextFault
  match io.1 with
  | some err => (some err, io.2.log (Call.writeFreelist (some err)))
  | none =>
    (none, { io.2 with freelistDisk := some io.2.freelist }.log (Call.writeFreelist none))

/-- The Go map `map[pgnum]*Node`: an association list with unique keys. The
order of the entries stands for the order in which `range` visits them, which
Go leaves unspecified. -/
abbrev NodeMap := AList (fun _ : pgnum => Node)

/-- The transaction struct of tx.go. `dirtyNodes = none` is the nil map that
`Commit` and `Rollback` leave behind; a nil slice is the empty list. The
pointer `db` is the `DB` value passed alongside; `id` stands for the address
of the struct. -/
structure tx where
  dirtyNodes : Option NodeMap
  pagesToDelete : List pgnum
  allocatedPageNums : List pgnum
  write : Bool
  id : Nat
  deriving DecidableEq

/-- Function `newTx` of tx.go; `id` is the address of the new struct. -/
def newTx (write : Bool) (id : Nat) : tx :=
  { dirtyNodes := some ∅, pagesToDelete := [], allocatedPageNums := [],
    write := write, id := id }

/-- Method `tx.newNode` of tx.go. -/
def tx.newNode (t : tx) (db : DB) (items : List Item) (childNodes : List pgnum) :
    Node × tx × DB :=
  let node := NewEmptyNode
  let node := { node with items := items }
  let node := { node with childNodes := childNodes }
  let r := db.getNextPage
  let node := { node with pageNum := r.1 }
  let node := { node with tx := some t.id }
  (node, { t with allocatedPageNums := t.allocatedPageNums ++ [node.pageNum] }, r.2)

/-- Lookup in the dirty-node map; a nil map has no entry. -/
def tx.dirty (t : tx) (pageNum : pgnum) : Option Node :=
  match t.dirtyNodes with
  | none => none
  | some m => m.lookup pageNum

/-- Method `tx.getNode` of tx.go. -/
def tx.getNode (t : tx) (db : DB) (pageNum : pgnum) : Except Err Node × DB :=
  match t.dirty pageNum with
  | some node => (.ok node, db)
  | none =>
    match db.getNode pageNum with
    | (.error err, db1) => (.error err, db1)
    | (.ok node, db1) => (.ok { node with tx := some t.id }, db1)

/-- Method `tx.writeNode` of tx.go. The node is tagged in place, so the map
entry and the returned node both carry the tag. `none`: assignment to an
entry of a nil map, a Go panic. -/
def tx.writeNode (t : tx) (node : Node) : Option (Node × tx) :=
  match t.dirtyNodes with
  | none => none
  | some m =>
    let node := { node with tx := some t.id }
    some (node, { t with dirtyNodes := some (m.insert node.pageNum node) })

/-- Method `tx.deleteNode` of tx.go. -/
def tx.deleteNode (t : tx) (node : Node) : tx :=
  { t with pagesToDelete := t.pagesToDelete ++ [node.pageNum] }

/-- The loop of `tx.Rollback` over `allocatedPageNums`. -/
def releaseAll (db : DB) (pages : List pgnum) : DB :=
  pages.foldl DB.releasePage db

/-- Method `tx.Rollback` of tx.go. -/
def tx.Rollback (t : tx) (db : DB) : tx × DB :=
  if !t.write then
    (t, db.RUnlock)
  else
    let t := { t with dirtyNodes := none }
    let t := { t with pagesToDelete := [] }
    let db := releaseAll db t.allocatedPageNums
    let t := { t with allocatedPageNums := [] }
    (t, db.Unlock)

/-- The first loop of `tx.Commit`: writes the dirty nodes in the order given,
stops at the first error and returns it. -/
def writeDirty (db : DB) : List (Σ _ : pgnum, Node) → Option Err × DB
  | [] => (none, db)
  | e :: rest =>
    match db.writeNode e.2 with
    | (.error err, db1) => (some err, db1)
    | (.ok _, db1) => writeDirty db1 rest

/-- The entries `range` visits: none for a nil map. -/
def tx.dirtyEntries (t : tx) : List (Σ _ : pgnum, Node) :=
  match t.dirtyNodes with
  | none => []
  | some m => m.entries

/-- The second loop of `tx.Commit` over `pagesToDelete`. -/
def deleteAll (db : DB) (pages : List pgnum) : DB :=
  pages.foldl DB.deleteNode db

/-- Method `tx.Commit` of tx.go: the returned error (`none` is nil), the
transaction and the database afterwards. -/
def tx.Commit (t : tx) (db : DB) : Option Err × tx × DB :=
  if !t.write then
    (none, t, db.RUnlock)
  else
    match writeDirty db t.dirtyEntries with
    | (some err, db1) => (some err, t, db1)
    | (none, db1) =>
      let db2 := deleteAll db1 t.pagesToDelete
      match db2.writeFreelist with
      | (some err, db3) => (some err, t, db3)
      | (none, db3) =>
        let t := { t with dirtyNodes := none }
        let t := { t with pagesToDelete := [] }
        let t := { t with allocatedPageNums := [] }
        (none, t, db3.Unlock)

/-- Method `DB.WriteTx` of db.go: takes the lock, then builds the transaction.
`none` when the caller blocks on the lock. (db.go passes `db.root` as an extra
argument to `newTx`; the struct of tx.go has no field for it.) -/
def DB.WriteTx (db : DB) (id : Nat) : Option (tx × DB) :=
  match db.Lock with
  | none => none
  | some db1 => some (newTx true id, db1)

/-- Method `DB.ReadTx` of db.go: takes no lock. -/
def DB.ReadTx (db : DB) (id : Nat) : tx × DB :=
  (newTx false id, db)

/-- Modelled from the spec: the operations of `Collection` (collection.go and
the tree algorithms are missing) that tx.go calls. They run inside a
transaction, so each takes and returns the transaction and the database.
`Find` is read-only on the transaction. For `Put` and `Remove`, `none` is a Go
panic; otherwise the error (`none` is nil), the collection (its root may have
changed), the transaction and the database. -/
structure CollectionOps where
  Find : Collection → tx → DB → List Nat → Except Err (Option Item) × DB
  Put : Collection → tx → DB → List Nat → List Nat →
    Option (Option Err × Collection × tx × DB)
  Remove : Collection → tx → DB → List Nat →
    Option (Option Err × Collection × tx × DB)
  serialize : Collection → Item
  deserialize : Item → Collection

/-- Method `tx.getRootCollection` of tx.go. -/
def tx.getRootCollection (t : tx) (db : DB) : Collection :=
  let rootCollection := newEmptyCollection
  let rootCollection := { rootCollection with root := db.root }
  let rootCollection := { rootCollection with tx := some t.id }
  rootCollection

/-- Method `tx.GetCollection` of tx.go. -/
def tx.GetCollection (ops : CollectionOps) (t : tx) (db : DB) (name : List Nat) :
    Except Err (Option Collection) × DB :=
  let rootCollection := t.getRootCollection db
  match ops.Find rootCollection t db name with
  | (.error err, db1) => (.error err, db1)
  | (.ok none, db1) => (.ok none, db1)
  | (.ok (some item), db1) =>
    let collection := ops.deserialize item
    let collection := { collection with tx := some t.id }
    (.ok (some collection), db1)

/-- Method `tx.createCollection` of tx.go. `none` is a Go panic inside
`Put`. -/
def tx.createCollection (ops : CollectionOps) (t : tx) (db : DB) (collection : Collection) :
    Option (Except Err Collection × tx × DB) :=
  let collection := { collection with tx := some t.id }
  let collectionBytes := ops.serialize collection
  let rootCollection := t.getRootCollection db
  match ops.Put rootCollection t db collection.name collectionBytes.value with
  | none => none
  | some (some err, _, t1, db1) => some (.error err, t1, db1)
  | some (none, _, t1, db1) => some (.ok collection, t1, db1)

/-- Method `tx.CreateCollection` of tx.go. -/
def tx.CreateCollection (ops : CollectionOps) (t : tx) (db : DB) (name : List Nat) :
    Option (Except Err Collection × tx × DB) :=
  if !t.write then
    some (.error Err.writeInsideReadTxErr, t, db)
  else
    match db.writeNode NewEmptyNode with
    | (.error err, db1) => some (.error err, t, db1)
    | (.ok newCollectionPage, db1) =>
      let newCollection := newEmptyCollection
      let newCollection := { newCollection with name := name }
      let newCollection := { newCollection with root := newCollectionPage.pageNum }
      t.createCollection ops db1 newCollection

/-- Method `tx.DeleteCollection` of tx.go. -/
def tx.DeleteCollection (ops : CollectionOps) (t : tx) (db : DB) (name : List Nat) :
    Option (Option Err × tx × DB) :=
  if !t.write then
    some (some Err.writeInsideReadTxErr, t, db)
  else
    let rootCollection := t.getRootCollection db
    match ops.Remove rootCollection t db name with
    | none => none
    | some (err, _, t1, db1) => some (err, t1, db1)

/-! ## A concrete instance of the collection operations

Used to run the code on concrete inputs. -/

/-- Modelled from the spec: `Collection.Find` (collection.go is missing), for
a tree that consists of its root node only: reads the root through the
transaction and looks the key up; absent is not an error. -/
def leafFind (c : Collection) (t : tx) (db : DB) (key : List Nat) :
    Except Err (Option Item) × DB :=
  match t.getNode db c.root with
  | (.error err, db1) => (.error err, db1)
  | (.ok node, db1) => (.ok (node.items.find? (fun i => decide (i.key = key))), db1)

/-- Modelled from the spec: `Collection.Put` (collection.go is missing), for
a tree that consists of its root node only: fails on a read transaction,
otherwise reads the root through the transaction, inserts or updates the item
in key order and stages the node with `tx.writeNode`. -/
def leafPut (c : Collection) (t : tx) (db : DB) (key value : List Nat) :
    Option (Option Err × Collection × tx × DB) :=
  if !t.write then
    some (some Err.writeInsideReadTxErr, c, t, db)
  else
    match t.getNode db c.root with
    | (.error err, db1) => some (some err, c, t, db1)
    | (.ok node, db1) =>
      let items := node.items.filter (fun i => decide (i.key < key)) ++
        [{ key := key, value := value }] ++
        node.items.filter (fun i => decide (key < i.key))
      match t.writeNode { node with items := items } with
      | none => none
      | some (_, t1) => some (none, c, t1, db1)

/-- Modelled from the spec: `Collection.Remove` (collection.go is missing),
for a tree that consists of its root node only: fails on a read transaction,
otherwise reads the root through the transaction, drops the item and stages
the node with `tx.writeNode`. -/
def leafRemove (c : Collection) (t : tx) (db : DB) (key : List Nat) :
    Option (Option Err × Collection × tx × DB) :=
  if !t.write then
    some (some Err.writeInsideReadTxErr, c, t, db)
  else
    match t.getNode db c.root with
    | (.error err, db1) => some (some err, c, t, db1)
    | (.ok node, db1) =>
      let items := node.items.filter (fun i => decide (i.key ≠ key))
      match t.writeNode { node with items := items } with
      | none => none
      | some (_, t1) => some (none, c, t1, db1)

/-- Modelled from the spec: `Collection.serialize` and `deserialize`
(collection.go is missing): the item is keyed by the collection's name and its
value holds the root page number followed by the name. -/
def leafOps : CollectionOps :=
  { Find := leafFind
    Put := leafPut
    Remove := leafRemove
    serialize := fun c => { key := c.name, value := c.root :: c.name }
    deserialize := fun i => { name := i.key, root := i.value.headD 0, tx := none } }

/-! ## A B-tree instance of the collection operations

The tree algorithms are outside the source files. This instance follows what
the specification says of them: nodes hold ordered items, internal nodes have
one more child than items, `Find` descends from the root, `Put` inserts or
updates and splits a node that is too full through `tx.newNode` and
`tx.writeNode`, and the collection's root changes when the top node splits.
The capacity of a node (`maxItems`) and the bound on the height of a tree
(`height`) are parameters. -/

/-- Modelled from the spec: insert or update an item in the ordered items of a
node. -/
def insertItem (items : List Item) (key value : List Nat) : List Item :=
  items.filter (fun i => decide (i.key < key)) ++ [{ key := key, value := value }] ++
    items.filter (fun i => decide (key < i.key))

/-- Modelled from the spec: the position of the child that covers `key` in an
internal node: the number of items with a smaller key. -/
def childIndex (items : List Item) (key : List Nat) : Nat :=
  (items.filter (fun i => decide (i.key < key))).length

/-- Modelled from the spec: `Collection.Find` from a given page: looks the key
up in the node and otherwise descends into the child that covers it; a leaf
without the key reports it absent. `fuel` bounds the height of the tree; a
deeper tree is reported as undecodable. -/
def treeFindFrom (t : tx) (key : List Nat) : Nat → DB → pgnum → Except Err (Option Item) × DB
  | 0, db, _ => (.error Err.DecodeError, db)
  | fuel + 1, db, pageNum =>
    match t.getNode db pageNum with
    | (.error err, db1) => (.error err, db1)
    | (.ok node, db1) =>
      match node.items.find? (fun i => decide (i.key = key)) with
      | some item => (.ok (some item), db1)
      | none =>
        match node.childNodes[childIndex node.items key]? with
        | none => (.ok none, db1)
        | some child => treeFindFrom t key fuel db1 child

/-- Modelled from the spec: stage a changed node. A node within capacity is
staged with `tx.writeNode`. A node over capacity splits: the left half keeps
the page, the right half goes to a node from `tx.newNode`, both are staged, and
the middle item is handed up together with the page of the right half. `none`
is a Go panic. -/
def stageNode (maxItems : Nat) (t : tx) (db : DB) (node : Node) :
    Option (Option (Item × pgnum) × tx × DB) :=
  if node.items.length ≤ maxItems then
    match t.writeNode node with
    | none => none
    | some (_, t1) => some (none, t1, db)
  else
    match node.items[node.items.length / 2]? with
    | none => none
    | some up =>
      match t.writeNode { node with
          items := node.items.take (node.items.length / 2)
          childNodes := node.childNodes.take (node.items.length / 2 + 1) } with
      | none => none
      | some (_, t1) =>
        let r := t1.newNode db (node.items.drop (node.items.length / 2 + 1))
          (node.childNodes.drop (node.items.length / 2 + 1))
        match r.2.1.writeNode r.1 with
        | none => none
        | some (right, t2) => some (some (up, right.pageNum), t2, r.2.2)

/-- Modelled from the spec: insertion below a page. The item goes into the
node when it is a leaf or already holds the key, otherwise into the child that
covers the key; an item handed up by a split child is inserted into the node
with the new child next to the split one. Returns the error (`none` is nil)
and what this node hands up when it splits. `none` is a Go panic. -/
def treeInsert (maxItems : Nat) (key value : List Nat) :
    Nat → tx → DB → pgnum → Option (Option Err × Option (Item × pgnum) × tx × DB)
  | 0, t, db, _ => some (some Err.DecodeError, none, t, db)
  | fuel + 1, t, db, pageNum =>
    match t.getNode db pageNum with
    | (.error err, db1) => some (some err, none, t, db1)
    | (.ok node, db1) =>
      if node.childNodes.isEmpty || node.items.any (fun i => decide (i.key = key)) then
        match stageNode maxItems t db1 { node with items := insertItem node.items key value } with
        | none => none
        | some (up, t1, db2) => some (none, up, t1, db2)
      else
        match node.childNodes[childIndex node.items key]? with
        | none => some (some Err.DecodeError, none, t, db1)
        | some child =>
          match treeInsert maxItems key value fuel t db1 child with
          | none => none
          | some (some err, _, t1, db2) => some (some err, none, t1, db2)
          | some (none, none, t1, db2) => some (none, none, t1, db2)
          | some (none, some (up, right), t1, db2) =>
            match stageNode maxItems t1 db2 { node with
                items := insertItem node.items up.key up.value
                childNodes := node.childNodes.take (childIndex node.items key + 1) ++ [right] ++
                  node.childNodes.drop (childIndex node.items key + 1) } with
            | none => none
            | some (up2, t2, db3) => some (none, up2, t2, db3)

/-- Modelled from the spec: `Collection.Find`. -/
def treeFind (height : Nat) (c : Collection) (t : tx) (db : DB) (key : List Nat) :
    Except Err (Option Item) × DB :=
  treeFindFrom t key height db c.root

/-- Modelled from the spec: `Collection.Put`: fails on a read transaction;
otherwise inserts below the root, and when the root node splits makes a new
root over the two halves with `tx.newNode`, stages it and sets the collection's
`root` to it. -/
def treePut (maxItems height : Nat) (c : Collection) (t : tx) (db : DB)
    (key value : List Nat) : Option (Option Err × Collection × tx × DB) :=
  if !t.write then
    some (some Err.writeInsideReadTxErr, c, t, db)
  else
    match treeInsert maxItems key value height t db c.root with
    | none => none
    | some (some err, _, t1, db1) => some (some err, c, t1, db1)
    | some (none, none, t1, db1) => some (none, c, t1, db1)
    | some (none, some (up, right), t1, db1) =>
      let r := t1.newNode db1 [up] [c.root, right]
      match r.2.1.writeNode r.1 with
      | none => none
      | some (top, t2) => some (none, { c with root := top.pageNum }, t2, r.2.2)

/-- Modelled from the spec: the collection operations over the B-tree above;
`Remove` and the encoding of a collection are those of `leafOps`. -/
def treeOps (maxItems height : Nat) : CollectionOps :=
  { leafOps with
    Find := treeFind height
    Put := treePut maxItems height }

/-- A store whose root collection is the empty node at page 1; page 1 is the
highest page in use, nothing is released, the lock is free. -/
def emptyStore : DB :=
  { rwlock := { w := false, r := 0 }
    fatal := false
    pages := fun p => if p = 1 then some { NewEmptyNode with pageNum := 1 } else none
    freelistDisk := some { maxPage := 1, releasedPages := [] }
    freelist := { maxPage := 1, releasedPages := [] }
    root := 1
    faults := []
    calls := [] }

/-- A store with two collections, named 10 and 20 and rooted at the empty
nodes of pages 2 and 3, recorded in the root collection's node at page 1; page
3 is the highest page in use, nothing is released, the write lock is held. -/
def twoCollections : DB :=
  { rwlock := { w := true, r := 0 }
    fatal := false
    pages := fun p =>
      if p = 1 then
        some { NewEmptyNode with
          pageNum := 1
          items := [{ key := [10], value := [2, 10] }, { key := [20], value := [3, 20] }] }
      else if p = 2 then some { NewEmptyNode with pageNum := 2 }
      else if p = 3 then some { NewEmptyNode with pageNum := 3 }
      else none
    freelistDisk := some { maxPage := 3, releasedPages := [] }
    freelist := { maxPage := 3, releasedPages := [] }
    root := 1
    faults := []
    calls := [] }

/-- The store `emptyStore` with a storage whose next page write fails. -/
def failingStore : DB :=
  { emptyStore with faults := [some (Err.IOError 5)] }

/-- The store `emptyStore` with the write lock held. -/
def lockedStore : DB :=
  { emptyStore with rwlock := { w := true, r := 0 } }

/-- A write transaction in the middle of its work: node 1 is dirty, page 1 is
staged for deletion and pages 2 and 3 were allocated. -/
def stagedTx : tx :=
  { dirtyNodes := some (AList.insert 1 { NewEmptyNode with pageNum := 1, tx := some 7 } ∅)
    pagesToDelete := [1]
    allocatedPageNums := [2, 3]
    write := true
    id := 7 }

/-- A write transaction with two dirty nodes, at pages 1 and 4, each keyed by
its page number; page 1 is staged for deletion and pages 2 and 3 were
allocated. -/
def twoDirtyTx : tx :=
  { dirtyNodes := some (AList.insert 4
      { NewEmptyNode with pageNum := 4, childNodes := [9], tx := some 7 }
      (AList.insert 1 { NewEmptyNode with pageNum := 1, tx := some 7 } ∅))
    pagesToDelete := [1]
    allocatedPageNums := [2, 3]
    write := true
    id := 7 }

/-- The store `failingStore` with the write lock held. -/
def failingLocked : DB :=
  { failingStore with rwlock := { w := true, r := 0 } }

/-! ## Projections of the ghost log -/

/-- The node writes in a log, each with its outcome. -/
def nodeWrites (cs : List Call) : List (Node × Option Err) :=
  cs.filterMap fun c => match c with
    | Call.writeNode n e => some (n, e)
    | _ => none

/-- The pages passed to the node store's `deleteNode` in a log. -/
def pageDeletes (cs : List Call) : List pgnum :=
  cs.filterMap fun c => match c with
    | Call.deleteNode p => some p
    | _ => none

/-- The pages passed to the allocator's `releasePage` in a log. -/
def pageReleases (cs : List Call) : List pgnum :=
  cs.filterMap fun c => match c with
    | Call.releasePage p => some p
    | _ => none

/-- The freelist writes in a log, each with its outcome. -/
def freelistWrites (cs : List Call) : List (Option Err) :=
  cs.filterMap fun c => match c with
    | Call.writeFreelist e => some e
    | _ => none

/-- The number of `Unlock` calls in a log. -/
def unlocks (cs : List Call) : Nat :=
  cs.count Call.Unlock

/-- No node write in the log failed. -/
def NoFailedWrite (cs : List Call) : Prop :=
  ∀ n e, Call.writeNode n (some e) ∉ cs

/-- Every coming page write of the storage succeeds. -/
def DB.AllWritesSucceed (db : DB) : Prop :=
  ∀ e ∈ db.faults, e = none

/-- The calls the node store's `writeNode` issues for node `n`: the allocation
of a page when the node has none, then the write with its outcome. -/
def writeNodeCalls (db : DB) (n : Node) : List Call :=
  (if n.pageNum = 0 then [Call.getNextPage db.freelist.getNextPage.1] else []) ++
    [Call.writeNode n db.nextFault.1]

/-! ## The database as a state machine

The steps a program can take with write transactions: open one with `WriteTx`,
and end one opened earlier with `Commit` or `Rollback`. -/

/-- A write transaction opened so far. `finalized` is ghost state: it records
that `Rollback`, or a `Commit` that returned no error, has run on it. -/
structure Handle where
  t : tx
  finalized : Bool

/-- The database handle and the transactions opened so far, oldest first. -/
structure System where
  db : DB
  txs : List Handle

/-- A step of the program; `i` is the position of the transaction in `txs`. -/
inductive Step where
  | WriteTx
  | Commit (i : Nat)
  | Rollback (i : Nat)

/-- The number of active write transactions: opened and not yet finalized. -/
def System.active (s : System) : Nat :=
  s.txs.countP fun h => !h.finalized

/-- One step. `none` when the step cannot be taken: the process has died of a
fatal runtime error, `WriteTx` blocks on the lock, or the transaction does not
exist. `Commit` and `Rollback` may be applied to any transaction opened so
far, finalized or not. -/
def System.step (s : System) (st : Step) : Option System :=
  if s.db.fatal then none
  else
    match st with
    | Step.WriteTx =>
      match s.db.WriteTx s.txs.length with
      | none => none
      | some (t, db) => some { db := db, txs := s.txs ++ [{ t := t, finalized := false }] }
    | Step.Commit i =>
      match s.txs[i]? with
      | none => none
      | some h =>
        let r := h.t.Commit s.db
        some { db := r.2.2
               txs := s.txs.set i { t := r.2.1, finalized := h.finalized || r.1.isNone } }
    | Step.Rollback i =>
      match s.txs[i]? with
      | none => none
      | some h =>
        let r := h.t.Rollback s.db
        some { db := r.2, txs := s.txs.set i { t := r.1, finalized := true } }

/-- Whether the step addresses a transaction that is still active (`WriteTx`
addresses none). -/
def System.onActive (s : System) : Step → Bool
  | Step.WriteTx => true
  | Step.Commit i => (s.txs[i]?).any fun h => !h.finalized
  | Step.Rollback i => (s.txs[i]?).any fun h => !h.finalized

/-- Run a sequence of steps. -/
def System.run (s : System) : List Step → Option System
  | [] => some s
  | st :: rest =>
    match s.step st with
    | none => none
    | some s1 => s1.run rest

/-- Run a sequence of steps in which `Commit` and `Rollback` are applied to
active transactions only. -/
def System.runActive (s : System) : List Step → Option System
  | [] => some s
  | st :: rest =>
    if s.onActive st then
      match s.step st with
      | none => none
      | some s1 => s1.runActive rest
    else none

/-- The start: a database and no transaction opened yet. -/
def System.start (db : DB) : System :=
  { db := db, txs := [] }

/-- The phase of `Commit` a call belongs to: 0 for the flush of the dirty
nodes (node writes and the page allocations they need), 1 for the release of
the pages to delete, 2 for the freelist write, 3 for anything else, in
particular the final `Unlock`. -/
def commitPhase : Call → Nat
  | Call.getNextPage _ => 0
  | Call.writeNode _ _ => 0
  | Call.deleteNode _ => 1
  | Call.releasePage _ => 1
  | Call.writeFreelist _ => 2
  | _ => 3

/-- The database after this run of a write transaction `t`: `newNode`,
`deleteNode` of the new node, `Commit`, then `Rollback` of what `Commit` left. -/
def failedThenRollback (t : tx) (db : DB) : DB :=
  let r := t.newNode db [] []
  let c := (r.2.1.deleteNode r.1).Commit r.2.2
  (c.2.1.Rollback c.2.2).2

/-- The round trip: `CreateCollection` in a new write transaction, `Commit`,
then `GetCollection` in a fresh transaction (a write one when `w`). Returns the
collection created and the collection found; `none` when a step fails or the
collection is not found. -/
def roundTrip (ops : CollectionOps) (db : DB) (id id2 : Nat) (w : Bool) (name : List Nat) :
    Option (Collection × Collection) :=
  match (newTx true id).CreateCollection ops db name with
  | some (.ok c, t1, db1) =>
    match t1.Commit db1 with
    | (none, _, db2) =>
      match (newTx w id2).GetCollection ops db2 name with
      | (.ok (some c2), _) => some (c, c2)
      | _ => none
    | _ => none
  | _ => none

/-- The invariant of the state machine: every transaction opened is a write
transaction, and either the lock is held and one transaction is active, or the
lock is free and none is. -/
def Inv (s : System) : Prop :=
  (∀ h ∈ s.txs, h.t.write = true) ∧
  ((s.db.rwlock.w = true ∧ s.active = 1) ∨ (s.db.rwlock.w = false ∧ s.active = 0))

/-! ## Effects of the primitive operations -/

section primitives

@[simp] theorem nodeWrites_append (a b : List Call) :
    nodeWrites (a ++ b) = nodeWrites a ++ nodeWrites b := by
  simp [nodeWrites]

@[simp] theorem pageDeletes_append (a b : List Call) :
    pageDeletes (a ++ b) = pageDeletes a ++ pageDeletes b := by
  simp [pageDeletes]

@[simp] theorem pageReleases_append (a b : List Call) :
    pageReleases (a ++ b) = pageReleases a ++ pageReleases b := by
  simp [pageReleases]

@[simp] theorem freelistWrites_append (a b : List Call) :
    freelistWrites (a ++ b) = freelistWrites a ++ freelistWrites b := by
  simp [freelistWrites]

@[simp] theorem unlocks_append (a b : List Call) :
    unlocks (a ++ b) = unlocks a + unlocks b := by
  simp [unlocks]

theorem NoFailedWrite_append {a b : List Call} (ha : NoFailedWrite a) (hb : NoFailedWrite b) :
    NoFailedWrite (a ++ b) := by
  intro n e h
  rcases List.mem_append.mp h with h | h
  · exact ha n e h
  · exact hb n e h

@[simp] theorem log_calls (db : DB) (c : Call) : (db.log c).calls = db.calls ++ [c] := rfl
@[simp] theorem log_rwlock (db : DB) (c : Call) : (db.log c).rwlock = db.rwlock := rfl
@[simp] theorem log_fatal (db : DB) (c : Call) : (db.log c).fatal = db.fatal := rfl
@[simp] theorem log_pages (db : DB) (c : Call) : (db.log c).pages = db.pages := rfl
@[simp] theorem log_freelist (db : DB) (c : Call) : (db.log c).freelist = db.freelist := rfl
@[simp] theorem log_freelistDisk (db : DB) (c : Call) :
    (db.log c).freelistDisk = db.freelistDisk := rfl
@[simp] theorem log_root (db : DB) (c : Call) : (db.log c).root = db.root := rfl
@[simp] theorem log_faults (db : DB) (c : Call) : (db.log c).faults = db.faults := rfl

@[simp] theorem releasePage_calls (db : DB) (p : pgnum) :
    (db.releasePage p).calls = db.calls ++ [Call.releasePage p] := rfl
@[simp] theorem releasePage_rwlock (db : DB) (p : pgnum) :
    (db.releasePage p).rwlock = db.rwlock := rfl
@[simp] theorem releasePage_fatal (db : DB) (p : pgnum) :
    (db.releasePage p).fatal = db.fatal := rfl
@[simp] theorem releasePage_pages (db : DB) (p : pgnum) :
    (db.releasePage p).pages = db.pages := rfl
@[simp] theorem releasePage_freelistDisk (db : DB) (p : pgnum) :
    (db.releasePage p).freelistDisk = db.freelistDisk := rfl
@[simp] theorem releasePage_root (db : DB) (p : pgnum) :
    (db.releasePage p).root = db.root := rfl
@[simp] theorem releasePage_faults (db : DB) (p : pgnum) :
    (db.releasePage p).faults = db.faults := rfl
@[simp] theorem releasePage_released (db : DB) (p : pgnum) :
    (db.releasePage p).freelist.releasedPages = p :: db.freelist.releasedPages := rfl
@[simp] theorem releasePage_maxPage (db : DB) (p : pgnum) :
    (db.releasePage p).freelist.maxPage = db.freelist.maxPage := rfl

/-- The loop of `Rollback`: one `releasePage` per page, in order, and nothing
else changes. -/
theorem releaseAll_spec (ps : List pgnum) (db : DB) :
    (releaseAll db ps).calls = db.calls ++ ps.map Call.releasePage ∧
    (releaseAll db ps).freelist.releasedPages = ps.reverse ++ db.freelist.releasedPages ∧
    (releaseAll db ps).freelist.maxPage = db.freelist.maxPage ∧
    (releaseAll db ps).rwlock = db.rwlock ∧
    (releaseAll db ps).fatal = db.fatal ∧
    (releaseAll db ps).pages = db.pages ∧
    (releaseAll db ps).freelistDisk = db.freelistDisk ∧
    (releaseAll db ps).root = db.root ∧
    (releaseAll db ps).faults = db.faults := by
  induction ps generalizing db with
  | nil => simp [releaseAll]
  | cons p ps ih =>
    have h := ih (db.releasePage p)
    simp only [releaseAll, List.foldl_cons] at h ⊢
    simp [h]

/-- The loop of `Commit` over `pagesToDelete`: one `deleteNode`, hence one
`releasePage`, per page, in order, and nothing else changes. -/
theorem deleteAll_spec (ps : List pgnum) (db : DB) :
    (deleteAll db ps).calls =
      db.calls ++ ps.flatMap (fun p => [Call.deleteNode p, Call.releasePage p]) ∧
    (deleteAll db ps).freelist.releasedPages = ps.reverse ++ db.freelist.releasedPages ∧
    (deleteAll db ps).freelist.maxPage = db.freelist.maxPage ∧
    (deleteAll db ps).rwlock = db.rwlock ∧
    (deleteAll db ps).fatal = db.fatal ∧
    (deleteAll db ps).pages = db.pages ∧
    (deleteAll db ps).freelistDisk = db.freelistDisk ∧
    (deleteAll db ps).root = db.root ∧
    (deleteAll db ps).faults = db.faults := by
  induction ps generalizing db with
  | nil => simp [deleteAll]
  | cons p ps ih =>
    have h := ih (db.deleteNode p)
    simp only [deleteAll, List.foldl_cons] at h ⊢
    simp only [h]
    simp [DB.deleteNode]

theorem Unlock_calls (db : DB) : db.Unlock.calls = db.calls ++ [Call.Unlock] := by
  unfold DB.Unlock; split <;> rfl

theorem Unlock_rwlock (db : DB) : db.Unlock.rwlock = { db.rwlock with w := false } := by
  unfold DB.Unlock
  split
  · rfl
  · next h =>
    cases hw : db.rwlock.w
    · cases hr : db.rwlock; simp_all
    · exact absurd hw h

theorem Unlock_fatal (db : DB) : db.Unlock.fatal = (db.fatal || !db.rwlock.w) := by
  unfold DB.Unlock
  cases hw : db.rwlock.w <;> simp

theorem Unlock_frame (db : DB) :
    db.Unlock.pages = db.pages ∧ db.Unlock.freelist = db.freelist ∧
    db.Unlock.freelistDisk = db.freelistDisk ∧ db.Unlock.root = db.root ∧
    db.Unlock.faults = db.faults := by
  unfold DB.Unlock; split <;> simp

theorem nextFault_fst (db : DB) : db.nextFault.1 = db.faults.head?.join := by
  unfold DB.nextFault; cases db.faults <;> rfl

theorem nextFault_snd (db : DB) : db.nextFault.2 = { db with faults := db.faults.tail } := by
  unfold DB.nextFault; cases h : db.faults <;> simp
  cases db; simp_all

theorem nextFault_of_succeed {db : DB} (h : db.AllWritesSucceed) :
    db.nextFault.1 = none ∧ db.nextFault.2.AllWritesSucceed := by
  rw [nextFault_fst, nextFault_snd]
  unfold DB.AllWritesSucceed at *
  cases hf : db.faults with
  | nil => simp
  | cons e rest =>
    rw [hf] at h
    have he := h e (List.mem_cons_self _ _)
    subst he
    refine ⟨rfl, ?_⟩
    intro e he
    exact h e (List.mem_cons_of_mem _ he)

theorem writeNode_calls (db : DB) (n : Node) :
    (db.writeNode n).2.calls = db.calls ++ writeNodeCalls db n := by
  unfold DB.writeNode writeNodeCalls DB.getNextPage
  by_cases hp : n.pageNum = 0 <;> simp only [hp, if_true, if_false] <;>
    cases hf : db.faults with
    | nil => simp [DB.nextFault, hf]
    | cons e rest => cases e <;> simp [DB.nextFault, hf]

theorem writeNode_frame (db : DB) (n : Node) :
    (db.writeNode n).2.rwlock = db.rwlock ∧ (db.writeNode n).2.fatal = db.fatal ∧
    (db.writeNode n).2.root = db.root ∧ (db.writeNode n).2.faults = db.faults.tail ∧
    (db.writeNode n).2.freelistDisk = db.freelistDisk := by
  unfold DB.writeNode DB.getNextPage
  by_cases hp : n.pageNum = 0 <;> simp only [hp, if_true, if_false] <;>
    cases hf : db.faults with
    | nil => simp [DB.nextFault, hf]
    | cons e rest => cases e <;> simp [DB.nextFault, hf]

theorem writeNode_result (db : DB) (n : Node) :
    (∀ err, (db.writeNode n).1 = .error err ↔ db.nextFault.1 = some err) ∧
    (db.nextFault.1 = none → ∃ m, (db.writeNode n).1 = .ok m) := by
  unfold DB.writeNode DB.getNextPage
  by_cases hp : n.pageNum = 0 <;> simp only [hp, if_true, if_false] <;>
    cases hf : db.faults with
    | nil => simp [DB.nextFault, hf]
    | cons e rest => cases e <;> simp [DB.nextFault, hf]

theorem writeNodeCalls_proj (db : DB) (n : Node) :
    nodeWrites (writeNodeCalls db n) = [(n, db.nextFault.1)] ∧
    pageDeletes (writeNodeCalls db n) = [] ∧
    pageReleases (writeNodeCalls db n) = [] ∧
    freelistWrites (writeNodeCalls db n) = [] ∧
    unlocks (writeNodeCalls db n) = 0 := by
  unfold writeNodeCalls
  by_cases hp : n.pageNum = 0 <;>
    simp [hp, nodeWrites, pageDeletes, pageReleases, freelistWrites, unlocks]

theorem writeFreelist_calls (db : DB) :
    db.writeFreelist.2.calls = db.calls ++ [Call.writeFreelist db.nextFault.1] ∧
    db.writeFreelist.1 = db.nextFault.1 := by
  unfold DB.writeFreelist
  cases hf : db.faults with
  | nil => simp [DB.nextFault, hf]
  | cons e rest => cases e <;> simp [DB.nextFault, hf]

theorem writeFreelist_frame (db : DB) :
    db.writeFreelist.2.rwlock = db.rwlock ∧ db.writeFreelist.2.fatal = db.fatal ∧
    db.writeFreelist.2.root = db.root ∧ db.writeFreelist.2.pages = db.pages ∧
    db.writeFreelist.2.freelist = db.freelist ∧
    (db.writeFreelist.1 = none → db.writeFreelist.2.freelistDisk = some db.freelist) := by
  unfold DB.writeFreelist
  cases hf : db.faults with
  | nil => simp [DB.nextFault, hf]
  | cons e rest => cases e <;> simp [DB.nextFault, hf]

end primitives

/-! ## The two phases of `Commit` -/

section commit

theorem writeDirty_cons (db : DB) (e : Σ _ : pgnum, Node) (rest : List (Σ _ : pgnum, Node)) :
    writeDirty db (e :: rest) =
      match (db.writeNode e.2).1 with
      | .error err => (some err, (db.writeNode e.2).2)
      | .ok _ => writeDirty (db.writeNode e.2).2 rest := by
  rw [writeDirty]
  rcases h : db.writeNode e.2 with ⟨r, db1⟩
  cases r <;> simp

/-- The flush loop: it only writes nodes (and allocates pages for nodes that
have none); when it fails, the failed write is the last call it issued and
the error returned is that write's error. -/
theorem writeDirty_spec (l : List (Σ _ : pgnum, Node)) (db : DB) :
    ∃ cs, (writeDirty db l).2.calls = db.calls ++ cs ∧
      pageDeletes cs = [] ∧ pageReleases cs = [] ∧ freelistWrites cs = [] ∧ unlocks cs = 0 ∧
      (writeDirty db l).2.rwlock = db.rwlock ∧
      (writeDirty db l).2.fatal = db.fatal ∧
      (writeDirty db l).2.root = db.root ∧
      ((writeDirty db l).1 = none →
        nodeWrites cs = l.map (fun e => (e.2, none)) ∧ NoFailedWrite cs) ∧
      (∀ err, (writeDirty db l).1 = some err →
        ∃ pre n, cs = pre ++ [Call.writeNode n (some err)] ∧ NoFailedWrite pre) := by
  induction l generalizing db with
  | nil =>
    refine ⟨[], ?_⟩
    simp [writeDirty, pageDeletes, pageReleases, freelistWrites, unlocks, nodeWrites,
      NoFailedWrite]
  | cons e rest ih =>
    have hc := writeNode_calls db e.2
    have hf := writeNode_frame db e.2
    have hr := writeNode_result db e.2
    have hp := writeNodeCalls_proj db e.2
    rw [writeDirty_cons]
    cases hres : (db.writeNode e.2).1 with
    | error err =>
      have hnf : db.nextFault.1 = some err := (hr.1 err).mp hres
      refine ⟨writeNodeCalls db e.2, hc, hp.2.1, hp.2.2.1, hp.2.2.2.1, hp.2.2.2.2,
        hf.1, hf.2.1, hf.2.2.1, ?_, ?_⟩
      · intro h; cases h
      · intro err2 h
        simp only [Option.some.injEq] at h
        subst h
        refine ⟨if e.2.pageNum = 0 then [Call.getNextPage db.freelist.getNextPage.1] else [],
          e.2, ?_, ?_⟩
        · simp [writeNodeCalls, hnf]
        · intro n x hx
          split at hx <;> simp at hx
    | ok m =>
      have hnf : db.nextFault.1 = none := by
        cases hn : db.nextFault.1 with
        | none => rfl
        | some err => rw [(hr.1 err).mpr hn] at hres; cases hres
      obtain ⟨cs, h1, h2, h3, h4, h5, h6, h7, h8, h9, h10⟩ := ih (db.writeNode e.2).2
      refine ⟨writeNodeCalls db e.2 ++ cs, ?_, ?_, ?_, ?_, ?_, ?_, ?_, ?_, ?_, ?_⟩
      · simp only [h1, hc, List.append_assoc]
      · simp [hp.2.1, h2]
      · simp [hp.2.2.1, h3]
      · simp [hp.2.2.2.1, h4]
      · simp [hp.2.2.2.2, h5]
      · simp only [h6, hf.1]
      · simp only [h7, hf.2.1]
      · simp only [h8, hf.2.2.1]
      · intro h
        obtain ⟨ha, hb⟩ := h9 h
        refine ⟨?_, NoFailedWrite_append ?_ hb⟩
        · simp [hp.1, ha, hnf]
        · intro n x hx
          simp only [writeNodeCalls, hnf] at hx
          split at hx <;> simp at hx
      · intro err h
        obtain ⟨pre, n, ha, hb⟩ := h10 err h
        refine ⟨writeNodeCalls db e.2 ++ pre, n, ?_, NoFailedWrite_append ?_ hb⟩
        · simp only [ha, List.append_assoc]
        · intro n x hx
          simp only [writeNodeCalls, hnf] at hx
          split at hx <;> simp at hx

/-- When every coming write succeeds, the flush loop returns no error and the
coming writes still all succeed. -/
theorem writeDirty_of_succeed (l : List (Σ _ : pgnum, Node)) (db : DB)
    (h : db.AllWritesSucceed) :
    (writeDirty db l).1 = none ∧ (writeDirty db l).2.AllWritesSucceed := by
  induction l generalizing db with
  | nil => exact ⟨rfl, h⟩
  | cons e rest ih =>
    rw [writeDirty_cons]
    have hn := nextFault_of_succeed h
    obtain ⟨m, hm⟩ := (writeNode_result db e.2).2 hn.1
    rw [hm]
    apply ih
    have hf := (writeNode_frame db e.2).2.2.2.1
    intro x hx
    rw [hf] at hx
    exact h x (List.mem_of_mem_tail hx)

/-- The three ways a write `Commit` can end. -/
theorem Commit_write_cases (t : tx) (db : DB) (h : t.write = true) :
    (∃ err, (writeDirty db t.dirtyEntries).1 = some err ∧
      t.Commit db = (some err, t, (writeDirty db t.dirtyEntries).2)) ∨
    ((writeDirty db t.dirtyEntries).1 = none ∧
      ∃ err, (deleteAll (writeDirty db t.dirtyEntries).2 t.pagesToDelete).writeFreelist.1
          = some err ∧
        t.Commit db = (some err, t,
          (deleteAll (writeDirty db t.dirtyEntries).2 t.pagesToDelete).writeFreelist.2)) ∨
    ((writeDirty db t.dirtyEntries).1 = none ∧
      (deleteAll (writeDirty db t.dirtyEntries).2 t.pagesToDelete).writeFreelist.1 = none ∧
      t.Commit db = (none,
        { t with dirtyNodes := none, pagesToDelete := [], allocatedPageNums := [] },
        (deleteAll (writeDirty db t.dirtyEntries).2 t.pagesToDelete).writeFreelist.2.Unlock)) := by
  unfold tx.Commit
  simp only [h, Bool.not_true, Bool.false_eq_true, if_false]
  rcases hw : writeDirty db t.dirtyEntries with ⟨r, db1⟩
  cases r with
  | some err => left; exact ⟨err, rfl, rfl⟩
  | none =>
    right
    dsimp only
    rcases hfl : (deleteAll db1 t.pagesToDelete).writeFreelist with ⟨r2, db3⟩
    cases r2 with
    | some err => left; exact ⟨rfl, err, rfl, rfl⟩
    | none => right; exact ⟨rfl, rfl, rfl⟩

theorem deleteCalls_proj (ps : List pgnum) :
    nodeWrites (ps.flatMap fun p => [Call.deleteNode p, Call.releasePage p]) = [] ∧
    pageDeletes (ps.flatMap fun p => [Call.deleteNode p, Call.releasePage p]) = ps ∧
    pageReleases (ps.flatMap fun p => [Call.deleteNode p, Call.releasePage p]) = ps ∧
    freelistWrites (ps.flatMap fun p => [Call.deleteNode p, Call.releasePage p]) = [] ∧
    unlocks (ps.flatMap fun p => [Call.deleteNode p, Call.releasePage p]) = 0 ∧
    NoFailedWrite (ps.flatMap fun p => [Call.deleteNode p, Call.releasePage p]) := by
  induction ps with
  | nil => simp [nodeWrites, pageDeletes, pageReleases, freelistWrites, unlocks, NoFailedWrite]
  | cons p ps ih =>
    obtain ⟨h1, h2, h3, h4, h5, h6⟩ := ih
    simp only [nodeWrites, pageDeletes, pageReleases, freelistWrites, unlocks] at h1 h2 h3 h4 h5
    refine ⟨?_, ?_, ?_, ?_, ?_, ?_⟩
    · simp [nodeWrites, h1]
    · simp [pageDeletes, h2]
    · simp [pageReleases, h3]
    · simp [freelistWrites, h4]
    · simp [unlocks, h5]
    · intro n e hx
      simp only [List.flatMap_cons, List.cons_append, List.nil_append, List.mem_cons] at hx
      rcases hx with hx | hx | hx
      · cases hx
      · cases hx
      · exact h6 n e hx

/-- A list that ends in `y` and in which `x` occurs only at the end: a split
of it at `x` leaves nothing after `x`. -/
theorem split_at_last {α : Type} {pre rest p : List α} {x y : α}
    (h : pre ++ x :: rest = p ++ [y]) (hx : x ∉ p) : rest = [] ∧ pre = p ∧ x = y := by
  rcases List.eq_nil_or_concat rest with hr | ⟨r, z, hr⟩
  · subst hr
    have h2 : pre ++ [x] = p ++ [y] := h
    obtain ⟨h3, h4⟩ := List.append_inj' h2 rfl
    simp only [List.cons.injEq, and_true] at h4
    exact ⟨rfl, h3, h4⟩
  · subst hr
    have h2 : (pre ++ x :: r) ++ [z] = p ++ [y] := by
      rw [← h]; simp
    obtain ⟨h3, _⟩ := List.append_inj' h2 rfl
    exact absurd (h3 ▸ (by simp : x ∈ pre ++ x :: r)) hx

/-- Whenever `Commit` on a write transaction returns an error, it has not
touched the lock and has issued no `Unlock`; the transaction is unchanged. -/
theorem Commit_error_keeps_lock (t : tx) (db : DB) (h : t.write = true) (err : Err)
    (he : (t.Commit db).1 = some err) :
    (t.Commit db).2.2.rwlock = db.rwlock ∧ (t.Commit db).2.2.fatal = db.fatal ∧
    (t.Commit db).2.1 = t ∧
    ∃ cs, (t.Commit db).2.2.calls = db.calls ++ cs ∧ unlocks cs = 0 := by
  obtain ⟨cs, h1, _, _, _, h5, h6, h7, _, _, _⟩ := writeDirty_spec t.dirtyEntries db
  have hd := deleteAll_spec t.pagesToDelete (writeDirty db t.dirtyEntries).2
  have hfc := writeFreelist_calls (deleteAll (writeDirty db t.dirtyEntries).2 t.pagesToDelete)
  have hff := writeFreelist_frame (deleteAll (writeDirty db t.dirtyEntries).2 t.pagesToDelete)
  rcases Commit_write_cases t db h with ⟨e, _, hc⟩ | ⟨_, e, _, hc⟩ | ⟨_, _, hc⟩
  · rw [hc]
    exact ⟨h6, h7, rfl, cs, h1, h5⟩
  · rw [hc]
    refine ⟨?_, ?_, rfl, cs ++ (t.pagesToDelete.flatMap fun p =>
      [Call.deleteNode p, Call.releasePage p]) ++ [Call.writeFreelist
        (deleteAll (writeDirty db t.dirtyEntries).2 t.pagesToDelete).nextFault.1], ?_, ?_⟩
    · simp only [hff.1, hd.2.2.2.1, h6]
    · simp only [hff.2.1, hd.2.2.2.2.1, h7]
    · simp only [hfc.1, hd.1, h1, List.append_assoc]
    · rw [unlocks_append, unlocks_append, h5, (deleteCalls_proj t.pagesToDelete).2.2.2.2.1]
      simp [unlocks]
  · rw [hc] at he; cases he

/-- A `Commit` on a write transaction that returns no error has cleared the
writer bit and left an empty write transaction behind. -/
theorem Commit_ok_unlocks (t : tx) (db : DB) (h : t.write = true)
    (he : (t.Commit db).1 = none) :
    (t.Commit db).2.2.rwlock.w = false ∧
    (t.Commit db).2.1 =
      { t with dirtyNodes := none, pagesToDelete := [], allocatedPageNums := [] } := by
  rcases Commit_write_cases t db h with ⟨e, _, hc⟩ | ⟨_, e, _, hc⟩ | ⟨_, _, hc⟩
  · rw [hc] at he; cases he
  · rw [hc] at he; cases he
  · rw [hc]
    exact ⟨by rw [Unlock_rwlock], rfl⟩

/-- What `Rollback` leaves of a write transaction and of the lock. -/
theorem Rollback_unlocks (t : tx) (db : DB) (h : t.write = true) :
    (t.Rollback db).2.rwlock.w = false ∧
    (t.Rollback db).1 =
      { t with dirtyNodes := none, pagesToDelete := [], allocatedPageNums := [] } := by
  unfold tx.Rollback
  simp only [h, Bool.not_true, Bool.false_eq_true, if_false]
  exact ⟨by rw [Unlock_rwlock], trivial⟩

end commit

/-! ## The state machine -/

section machine

theorem countP_set {α : Type} (p : α → Bool) (l : List α) (i : Nat) (x h : α)
    (hi : l[i]? = some h) :
    (l.set i x).countP p + (if p h then 1 else 0) = l.countP p + (if p x then 1 else 0) := by
  induction l generalizing i with
  | nil => simp at hi
  | cons a l ih =>
    cases i with
    | zero =>
      simp only [List.getElem?_cons_zero, Option.some.injEq] at hi
      subst hi
      simp only [List.set_cons_zero, List.countP_cons]
      omega
    | succ i =>
      simp only [List.getElem?_cons_succ] at hi
      have := ih i hi
      simp only [List.set_cons_succ, List.countP_cons]
      omega

theorem Lock_some {db db1 : DB} (h : db.Lock = some db1) :
    db.rwlock.w = false ∧ db1.rwlock.w = true := by
  unfold DB.Lock at h
  split at h
  · next hc =>
    simp only [Option.some.injEq] at h
    subst h
    exact ⟨hc.1, rfl⟩
  · cases h

theorem Inv_step {s s1 : System} {st : Step} (hinv : Inv s) (hact : s.onActive st = true)
    (hstep : s.step st = some s1) : Inv s1 := by
  obtain ⟨hw, hlock⟩ := hinv
  unfold System.step at hstep
  split at hstep
  · cases hstep
  cases st with
  | WriteTx =>
    simp only [DB.WriteTx] at hstep
    cases hl : s.db.Lock with
    | none => rw [hl] at hstep; cases hstep
    | some db1 =>
      rw [hl] at hstep
      simp only [Option.some.injEq] at hstep
      subst hstep
      obtain ⟨h0, h1⟩ := Lock_some hl
      refine ⟨?_, ?_⟩
      · intro h hh
        rcases List.mem_append.mp hh with hh | hh
        · exact hw h hh
        · simp only [List.mem_singleton] at hh
          subst hh; rfl
      · left
        rcases hlock with ⟨hx, _⟩ | ⟨_, ha⟩
        · rw [h0] at hx; cases hx
        · refine ⟨h1, ?_⟩
          simp only [System.active, List.countP_append] at ha ⊢
          rw [ha]; rfl
  | Commit i =>
    simp only at hstep
    cases hi : s.txs[i]? with
    | none => rw [hi] at hstep; cases hstep
    | some h =>
      rw [hi] at hstep
      simp only [Option.some.injEq] at hstep
      subst hstep
      simp only [System.onActive, hi, Option.any_some, Bool.not_eq_true'] at hact
      have hmem : h ∈ s.txs := List.getElem?_mem hi
      have hwr := hw h hmem
      have hcnt := countP_set (fun h : Handle => !h.finalized) s.txs i
        { t := (h.t.Commit s.db).2.1, finalized := h.finalized || (h.t.Commit s.db).1.isNone }
        h hi
      have hpos : 0 < s.active := List.countP_pos_iff.mpr ⟨h, hmem, by simp [hact]⟩
      rcases hlock with ⟨hx, ha⟩ | ⟨_, ha⟩
      swap
      · omega
      cases he : (h.t.Commit s.db).1 with
      | some err =>
        obtain ⟨hl, _, ht, _⟩ := Commit_error_keeps_lock h.t s.db hwr err he
        refine ⟨?_, ?_⟩
        · intro y hy
          rcases List.mem_or_eq_of_mem_set hy with hy | hy
          · exact hw y hy
          · subst hy; simp only; rw [ht]; exact hwr
        · left
          refine ⟨by simp only; rw [hl]; exact hx, ?_⟩
          simp [he, hact] at hcnt
          simp only [System.active] at ha ⊢
          simp only [hact, Option.isNone_some, Bool.or_self]
          omega
      | none =>
        obtain ⟨hl, ht⟩ := Commit_ok_unlocks h.t s.db hwr he
        refine ⟨?_, ?_⟩
        · intro y hy
          rcases List.mem_or_eq_of_mem_set hy with hy | hy
          · exact hw y hy
          · subst hy; simp only; rw [ht]; exact hwr
        · right
          refine ⟨hl, ?_⟩
          simp [he, hact] at hcnt
          simp only [System.active] at ha ⊢
          simp only [hact, Option.isNone_none, Bool.or_true]
          omega
  | Rollback i =>
    simp only at hstep
    cases hi : s.txs[i]? with
    | none => rw [hi] at hstep; cases hstep
    | some h =>
      rw [hi] at hstep
      simp only [Option.some.injEq] at hstep
      subst hstep
      simp only [System.onActive, hi, Option.any_some, Bool.not_eq_true'] at hact
      have hmem : h ∈ s.txs := List.getElem?_mem hi
      have hwr := hw h hmem
      have hcnt := countP_set (fun h : Handle => !h.finalized) s.txs i
        { t := (h.t.Rollback s.db).1, finalized := true } h hi
      have hpos : 0 < s.active := List.countP_pos_iff.mpr ⟨h, hmem, by simp [hact]⟩
      obtain ⟨hl, ht⟩ := Rollback_unlocks h.t s.db hwr
      rcases hlock with ⟨hx, ha⟩ | ⟨_, ha⟩
      swap
      · omega
      refine ⟨?_, ?_⟩
      · intro y hy
        rcases List.mem_or_eq_of_mem_set hy with hy | hy
        · exact hw y hy
        · subst hy; simp only; rw [ht]; exact hwr
      · right
        refine ⟨hl, ?_⟩
        simp [hact] at hcnt
        simp only [System.active] at ha ⊢
        omega

theorem Inv_runActive (steps : List Step) {s s1 : System} (hinv : Inv s)
    (hrun : s.runActive steps = some s1) : Inv s1 := by
  induction steps generalizing s with
  | nil =>
    simp only [System.runActive, Option.some.injEq] at hrun
    subst hrun; exact hinv
  | cons st rest ih =>
    simp only [System.runActive] at hrun
    split at hrun
    · next hact =>
      cases hs : s.step st with
      | none => rw [hs] at hrun; cases hrun
      | some s2 =>
        rw [hs] at hrun
        exact ih (Inv_step hinv hact hs) hrun
    · cases hrun

end machine

/-! ## What the flush leaves in the node store -/

section flush

/-- A successful write of a node that has a page: the page holds the node,
without its back-reference. -/
theorem writeNode_ok (db : DB) (n : Node) (h : db.AllWritesSucceed) (hp : n.pageNum ≠ 0) :
    (db.writeNode n).1 = .ok { n with tx := none } ∧
    (db.writeNode n).2.pages = Function.update db.pages n.pageNum (some { n with tx := none }) ∧
    (db.writeNode n).2.root = db.root ∧
    (db.writeNode n).2.AllWritesSucceed := by
  unfold DB.writeNode DB.AllWritesSucceed
  simp only [hp, if_false]
  cases hf : db.faults with
  | nil => simp [DB.nextFault, hf]
  | cons e rest =>
    have he : e = none := h e (by rw [hf]; exact List.mem_cons_self _ _)
    subst he
    simp [DB.nextFault, hf]
    intro x hx
    exact h x (by rw [hf]; exact List.mem_cons_of_mem _ hx)

/-- The flush loop on entries that are keyed by their own, assigned page
number: every entry's page holds the entry's node afterwards and every other
page is as it was. -/
theorem writeDirty_pages (l : List (Σ _ : pgnum, Node)) (db : DB)
    (hk : ∀ e ∈ l, e.2.pageNum = e.1 ∧ e.1 ≠ 0) (hnd : l.NodupKeys)
    (hok : db.AllWritesSucceed) :
    (∀ e ∈ l, (writeDirty db l).2.pages e.1 = some { e.2 with tx := none }) ∧
    (∀ q, q ∉ l.keys → (writeDirty db l).2.pages q = db.pages q) := by
  induction l generalizing db with
  | nil => exact ⟨fun e he => absurd he (List.not_mem_nil e), fun q _ => rfl⟩
  | cons e rest ih =>
    obtain ⟨hkey, hne⟩ := hk e (List.mem_cons_self _ _)
    have hp0 : e.2.pageNum ≠ 0 := by rw [hkey]; exact hne
    obtain ⟨hw1, hw2, _, hw4⟩ := writeNode_ok db e.2 hok hp0
    obtain ⟨hfresh, hnd2⟩ := List.nodupKeys_cons.mp hnd
    obtain ⟨ih1, ih2⟩ := ih (db.writeNode e.2).2
      (fun x hx => hk x (List.mem_cons_of_mem _ hx)) hnd2 hw4
    have hwd : writeDirty db (e :: rest) = writeDirty (db.writeNode e.2).2 rest := by
      rw [writeDirty_cons, hw1]
    rw [hwd]
    refine ⟨?_, ?_⟩
    · intro x hx
      rcases List.mem_cons.mp hx with hx | hx
      · subst hx
        rw [ih2 _ hfresh, hw2, ← hkey, Function.update_same]
      · exact ih1 x hx
    · intro q hq
      have hq1 : q ≠ e.1 := fun hqe => hq (by rw [hqe]; simp [List.keys])
      have hq2 : q ∉ rest.keys := fun hqr => hq (by simp [List.keys] at hqr ⊢; exact Or.inr hqr)
      rw [ih2 q hq2, hw2, hkey, Function.update_noteq hq1]

/-- A `Commit` on a write transaction whose writes all succeed, in terms of
the entries the flush loop ranges over. -/
theorem Commit_all_ok (t : tx) (db : DB) (h : t.write = true)
    (hok : db.AllWritesSucceed) :
    (t.Commit db).1 = none ∧
    (∃ cs, (t.Commit db).2.2.calls = db.calls ++ cs ∧
      nodeWrites cs = t.dirtyEntries.map (fun e => (e.2, none)) ∧
      pageDeletes cs = t.pagesToDelete ∧
      pageReleases cs = t.pagesToDelete ∧
      freelistWrites cs = [none] ∧
      unlocks cs = 1) ∧
    (t.Commit db).2.2.freelistDisk = some (t.Commit db).2.2.freelist ∧
    (t.Commit db).2.1.dirtyNodes = none ∧
    (t.Commit db).2.1.pagesToDelete = [] ∧
    (t.Commit db).2.1.allocatedPageNums = [] ∧
    (t.Commit db).2.2.rwlock.w = false ∧
    (db.rwlock.w = true → (t.Commit db).2.2.fatal = db.fatal) ∧
    (t.Commit db).2.2.pages = (writeDirty db t.dirtyEntries).2.pages := by
  obtain ⟨cs, h1, h2, h3, h4, h5, h6, h7, _, h9, _⟩ := writeDirty_spec t.dirtyEntries db
  obtain ⟨hw1, hw2⟩ := writeDirty_of_succeed t.dirtyEntries db hok
  have hd := deleteAll_spec t.pagesToDelete (writeDirty db t.dirtyEntries).2
  have hfc := writeFreelist_calls (deleteAll (writeDirty db t.dirtyEntries).2 t.pagesToDelete)
  have hff := writeFreelist_frame (deleteAll (writeDirty db t.dirtyEntries).2 t.pagesToDelete)
  have hdp := deleteCalls_proj t.pagesToDelete
  have hok2 : (deleteAll (writeDirty db t.dirtyEntries).2 t.pagesToDelete).AllWritesSucceed := by
    unfold DB.AllWritesSucceed
    rw [hd.2.2.2.2.2.2.2.2]
    exact hw2
  have hnf := (nextFault_of_succeed hok2).1
  have hfl : (deleteAll (writeDirty db t.dirtyEntries).2 t.pagesToDelete).writeFreelist.1
      = none := by rw [hfc.2, hnf]
  rcases Commit_write_cases t db h with ⟨e, he, _⟩ | ⟨_, e, he, _⟩ | ⟨_, _, hc⟩
  · rw [hw1] at he; cases he
  · rw [hfl] at he; cases he
  · rw [hc]
    have hu := Unlock_frame
      (deleteAll (writeDirty db t.dirtyEntries).2 t.pagesToDelete).writeFreelist.2
    refine ⟨rfl, ⟨cs ++ (t.pagesToDelete.flatMap fun p =>
      [Call.deleteNode p, Call.releasePage p]) ++ [Call.writeFreelist none] ++ [Call.Unlock],
      ?_, ?_, ?_, ?_, ?_, ?_⟩, ?_, rfl, rfl, rfl, ?_, ?_, ?_⟩
    · simp only [Unlock_calls, hfc.1, hd.1, h1, hnf, List.append_assoc]
    · rw [nodeWrites_append, nodeWrites_append, nodeWrites_append, (h9 hw1).1, hdp.1]
      simp [nodeWrites]
    · rw [pageDeletes_append, pageDeletes_append, pageDeletes_append, h2, hdp.2.1]
      simp [pageDeletes]
    · rw [pageReleases_append, pageReleases_append, pageReleases_append, h3, hdp.2.2.1]
      simp [pageReleases]
    · rw [freelistWrites_append, freelistWrites_append, freelistWrites_append, h4,
        hdp.2.2.2.1]
      simp [freelistWrites]
    · rw [unlocks_append, unlocks_append, unlocks_append, h5, hdp.2.2.2.2.1]
      simp [unlocks]
    · rw [hu.2.2.1, hu.2.1, hff.2.2.2.2.2 hfl, hff.2.2.2.2.1]
    · rw [Unlock_rwlock]
    · intro hw
      rw [Unlock_fatal, hff.1, hff.2.1, hd.2.2.2.1, hd.2.2.2.2.1, h6, h7, hw]
      simp
    · rw [hu.1, hff.2.2.2.1, hd.2.2.2.2.2.1]

end flush

/-! ## Commit and Rollback of a write transaction -/

section claims

/-- C1 (the code does not do this). `Commit` returns early on an error, before
the `Unlock` of its last line. Two runs from `WriteTx` on `failingStore`, whose
next page write fails: with one dirty node the node write fails, with no dirty
node the freelist write fails. In both, `Commit` returns the error, the write
lock is still held and no `Unlock` was issued. -/
theorem Commit_error_leaves_lock_held :
    ∃ t db, failingStore.WriteTx 7 = some (t, db) ∧
      ∃ n t1, t.writeNode { NewEmptyNode with pageNum := 1 } = some (n, t1) ∧
        (t1.Commit db).1 = some (Err.IOError 5) ∧
        nodeWrites (t1.Commit db).2.2.calls = [(n, some (Err.IOError 5))] ∧
        (t1.Commit db).2.2.rwlock.w = true ∧
        unlocks (t1.Commit db).2.2.calls = 0 ∧
        (t.Commit db).1 = some (Err.IOError 5) ∧
        freelistWrites (t.Commit db).2.2.calls = [some (Err.IOError 5)] ∧
        (t.Commit db).2.2.rwlock.w = true ∧
        unlocks (t.Commit db).2.2.calls = 0 := by
  refine ⟨_, _, rfl, _, _, rfl, ?_, ?_, ?_, ?_, ?_, ?_, ?_, ?_⟩ <;> decide

/-- C4. `Rollback` on a write transaction issues exactly one `releasePage` for
each element of `allocatedPageNums`, in order, followed by one `Unlock`, and no
other call; the pages end up in the allocator's free set; the three staging
fields are empty afterwards and the write lock is free (without a runtime
failure when it was held). The node store's pages are untouched. -/
theorem Rollback_write (t : tx) (db : DB) (h : t.write = true) :
    (t.Rollback db).2.calls =
      db.calls ++ t.allocatedPageNums.map Call.releasePage ++ [Call.Unlock] ∧
    (t.Rollback db).2.freelist.releasedPages =
      t.allocatedPageNums.reverse ++ db.freelist.releasedPages ∧
    (t.Rollback db).1.dirtyNodes = none ∧
    (t.Rollback db).1.pagesToDelete = [] ∧
    (t.Rollback db).1.allocatedPageNums = [] ∧
    (t.Rollback db).2.rwlock.w = false ∧
    (db.rwlock.w = true → (t.Rollback db).2.fatal = db.fatal) ∧
    (t.Rollback db).2.pages = db.pages := by
  have hr := releaseAll_spec t.allocatedPageNums db
  have hu := Unlock_frame (releaseAll db t.allocatedPageNums)
  unfold tx.Rollback
  simp only [h, Bool.not_true, Bool.false_eq_true, if_false]
  refine ⟨?_, ?_, trivial, trivial, trivial, ?_, ?_, ?_⟩
  · rw [Unlock_calls, hr.1]
  · rw [hu.2.1, hr.2.1]
  · rw [Unlock_rwlock]
  · intro hw
    rw [Unlock_fatal, hr.2.2.2.1, hr.2.2.2.2.1, hw]
    simp
  · rw [hu.1, hr.2.2.2.2.2.1]

/-- Witness of `Rollback_write`: a write transaction that allocated pages 2 and
3 and staged page 1 for deletion releases 2 and 3, then unlocks. -/
theorem Rollback_write_witness :
    stagedTx.write = true ∧
    (stagedTx.Rollback lockedStore).2.calls =
      lockedStore.calls ++ stagedTx.allocatedPageNums.map Call.releasePage ++ [Call.Unlock] :=
  ⟨rfl, (Rollback_write stagedTx lockedStore rfl).1⟩

/-- C5. When every node store write succeeds, `Commit` on a write transaction
returns no error and the calls it issues contain: one successful write for
each entry of the map `dirtyNodes` and no other node write (none for a nil
map), one `deleteNode` and one `releasePage` per element of `pagesToDelete`
(in order), one successful freelist write and one `Unlock`. When every dirty
node is keyed by its own, assigned page number, the node store afterwards holds
each dirty node at its page and is unchanged at every other page. Afterwards
the persisted freelist is the allocator's state, the three staging fields are
empty and the write lock is free. -/
theorem Commit_success (t : tx) (db : DB) (h : t.write = true)
    (hok : db.AllWritesSucceed) :
    (t.Commit db).1 = none ∧
    (∃ cs, (t.Commit db).2.2.calls = db.calls ++ cs ∧
      (∀ m, t.dirtyNodes = some m → nodeWrites cs = m.entries.map (fun e => (e.2, none))) ∧
      (t.dirtyNodes = none → nodeWrites cs = []) ∧
      pageDeletes cs = t.pagesToDelete ∧
      pageReleases cs = t.pagesToDelete ∧
      freelistWrites cs = [none] ∧
      unlocks cs = 1) ∧
    ((∀ q m, t.dirty q = some m → m.pageNum = q ∧ q ≠ 0) →
      (∀ p n, t.dirty p = some n → (t.Commit db).2.2.pages p = some { n with tx := none }) ∧
      (∀ q, t.dirty q = none → (t.Commit db).2.2.pages q = db.pages q)) ∧
    (t.Commit db).2.2.freelistDisk = some (t.Commit db).2.2.freelist ∧
    (t.Commit db).2.1.dirtyNodes = none ∧
    (t.Commit db).2.1.pagesToDelete = [] ∧
    (t.Commit db).2.1.allocatedPageNums = [] ∧
    (t.Commit db).2.2.rwlock.w = false ∧
    (db.rwlock.w = true → (t.Commit db).2.2.fatal = db.fatal) := by
  obtain ⟨h1, ⟨cs, hc1, hc2, hc3, hc4, hc5, hc6⟩, h3, h4, h5, h6, h7, h8, h9⟩ :=
    Commit_all_ok t db h hok
  refine ⟨h1, ⟨cs, hc1, ?_, ?_, hc3, hc4, hc5, hc6⟩, ?_, h3, h4, h5, h6, h7, h8⟩
  · intro m hm
    rw [hc2]
    simp only [tx.dirtyEntries, hm]
  · intro hm
    rw [hc2]
    simp only [tx.dirtyEntries, hm, List.map_nil]
  · intro hkeyed
    rw [h9]
    cases hm : t.dirtyNodes with
    | none =>
      refine ⟨?_, ?_⟩
      · intro p n hp
        simp [tx.dirty, hm] at hp
      · intro q _
        simp only [tx.dirtyEntries, hm, writeDirty]
    | some m =>
      have hlook : ∀ q, t.dirty q = m.lookup q := by
        intro q; simp only [tx.dirty, hm]
      have hk : ∀ e ∈ m.entries, e.2.pageNum = e.1 ∧ e.1 ≠ 0 := by
        intro e he
        apply hkeyed e.1 e.2
        rw [hlook]
        exact AList.mem_lookup_iff.mpr he
      obtain ⟨hp1, hp2⟩ := writeDirty_pages m.entries db hk m.nodupKeys hok
      simp only [tx.dirtyEntries, hm]
      refine ⟨?_, ?_⟩
      · intro p n hp
        rw [hlook] at hp
        exact hp1 ⟨p, n⟩ (AList.mem_lookup_iff.mp hp)
      · intro q hq
        rw [hlook] at hq
        apply hp2 q
        intro hmem
        exact (AList.lookup_eq_none.mp hq) (AList.mem_keys.mpr hmem)

/-- Witness of `Commit_success`: on a store whose writes all succeed, the
transaction with two dirty nodes (pages 4 and 1), one page to delete and two
allocated pages commits without error; the calls it issues contain the write
of both dirty nodes and afterwards page 4 holds its node. -/
theorem Commit_success_witness :
    twoDirtyTx.write = true ∧ lockedStore.AllWritesSucceed ∧
    (twoDirtyTx.Commit lockedStore).1 = none ∧
    (∃ cs, (twoDirtyTx.Commit lockedStore).2.2.calls = lockedStore.calls ++ cs ∧
      (∀ m, twoDirtyTx.dirtyNodes = some m →
        nodeWrites cs = m.entries.map (fun e => (e.2, none))) ∧
      (twoDirtyTx.dirtyNodes = none → nodeWrites cs = []) ∧
      pageDeletes cs = twoDirtyTx.pagesToDelete ∧
      pageReleases cs = twoDirtyTx.pagesToDelete ∧
      freelistWrites cs = [none] ∧
      unlocks cs = 1) ∧
    nodeWrites (twoDirtyTx.Commit lockedStore).2.2.calls =
      [({ NewEmptyNode with pageNum := 4, childNodes := [9], tx := some 7 }, none),
        ({ NewEmptyNode with pageNum := 1, tx := some 7 }, none)] ∧
    (twoDirtyTx.Commit lockedStore).2.2.pages 4 =
      some { NewEmptyNode with pageNum := 4, childNodes := [9] } :=
  ⟨rfl, by simp [DB.AllWritesSucceed, lockedStore, emptyStore],
    (Commit_success twoDirtyTx lockedStore rfl
      (by simp [DB.AllWritesSucceed, lockedStore, emptyStore])).1,
    (Commit_success twoDirtyTx lockedStore rfl
      (by simp [DB.AllWritesSucceed, lockedStore, emptyStore])).2.1,
    by decide, by decide⟩

/-- C6. If among the calls that `Commit` on a write transaction issues there
is a failed node write, then `Commit` returns exactly the error of that write,
that write is the last call `Commit` issues (nothing follows it), and before
it there was no page deletion, no page release and no freelist write. -/
theorem Commit_stops_at_failed_write (t : tx) (db : DB) (h : t.write = true)
    (pre rest : List Call) (n : Node) (err : Err)
    (hc : (t.Commit db).2.2.calls = db.calls ++ pre ++ Call.writeNode n (some err) :: rest) :
    (t.Commit db).1 = some err ∧ rest = [] ∧
    pageDeletes pre = [] ∧ pageReleases pre = [] ∧ freelistWrites pre = [] ∧
    NoFailedWrite pre := by
  obtain ⟨cs, h1, h2, h3, h4, _, _, _, _, h9, h10⟩ := writeDirty_spec t.dirtyEntries db
  have hd := deleteAll_spec t.pagesToDelete (writeDirty db t.dirtyEntries).2
  have hfc := writeFreelist_calls (deleteAll (writeDirty db t.dirtyEntries).2 t.pagesToDelete)
  have hdp := deleteCalls_proj t.pagesToDelete
  have hmem : ∀ l : List Call, db.calls ++ l = db.calls ++ pre ++
      Call.writeNode n (some err) :: rest → Call.writeNode n (some err) ∈ l := by
    intro l hl
    rw [List.append_assoc] at hl
    rw [List.append_cancel_left hl]
    simp
  have hfw : ∀ e, NoFailedWrite [Call.writeFreelist e] := by
    intro e m x hx; simp at hx
  have hul : NoFailedWrite [Call.Unlock] := by
    intro m x hx; simp at hx
  rcases Commit_write_cases t db h with ⟨e, he, hcm⟩ | ⟨hn, e, _, hcm⟩ | ⟨hn, _, hcm⟩
  · rw [hcm] at hc ⊢
    obtain ⟨p, n0, hcs, hp⟩ := h10 e he
    simp only at hc
    rw [h1, hcs, List.append_assoc] at hc
    have hsplit := split_at_last (List.append_cancel_left hc).symm (hp n err)
    obtain ⟨hr, hpre, hx⟩ := hsplit
    simp only [Call.writeNode.injEq, Option.some.injEq] at hx
    subst hpre
    rw [hcs] at h2 h3 h4
    simp only [pageDeletes_append, pageReleases_append, freelistWrites_append,
      List.append_eq_nil] at h2 h3 h4
    exact ⟨by rw [hx.2], hr, h2.1, h3.1, h4.1, hp⟩
  · rw [hcm] at hc
    simp only at hc
    rw [hfc.1, hd.1, h1, List.append_assoc, List.append_assoc] at hc
    exact absurd (hmem _ hc)
      (NoFailedWrite_append (h9 hn).2 (NoFailedWrite_append hdp.2.2.2.2.2 (hfw _)) n err)
  · rw [hcm] at hc
    simp only at hc
    rw [Unlock_calls, hfc.1, hd.1, h1, List.append_assoc, List.append_assoc,
      List.append_assoc] at hc
    exact absurd (hmem _ hc)
      (NoFailedWrite_append (h9 hn).2 (NoFailedWrite_append hdp.2.2.2.2.2
        (NoFailedWrite_append (hfw _) hul)) n err)

/-- Witness of `Commit_stops_at_failed_write`: with a storage whose next write
fails, the write of the dirty node of `stagedTx` is the only call and `Commit`
returns its error. -/
theorem Commit_stops_at_failed_write_witness :
    stagedTx.write = true ∧
    (stagedTx.Commit failingLocked).2.2.calls = failingLocked.calls ++ [] ++
      Call.writeNode { NewEmptyNode with pageNum := 1, tx := some 7 }
        (some (Err.IOError 5)) :: [] ∧
    (stagedTx.Commit failingLocked).1 = some (Err.IOError 5) :=
  ⟨rfl, by decide,
    (Commit_stops_at_failed_write stagedTx failingLocked rfl [] []
      { NewEmptyNode with pageNum := 1, tx := some 7 } (Err.IOError 5) (by decide)).1⟩

/-- C2 (the code does not do this). `CreateCollection` writes the root node of
the new collection straight to the node store with `tx.db.writeNode`, not
through the staging of `tx.writeNode`. Run: `WriteTx` on `emptyStore`,
`CreateCollection`, `Rollback`. Page 2 held no node when the transaction began
and holds the new collection's root node after `Rollback`. -/
theorem CreateCollection_survives_Rollback :
    ∃ t db, emptyStore.WriteTx 7 = some (t, db) ∧
      ∃ c t1 db1, t.CreateCollection leafOps db [117] = some (.ok c, t1, db1) ∧
        emptyStore.pages 2 = none ∧
        (t1.Rollback db1).2.pages 2 = some { NewEmptyNode with pageNum := 2 } := by
  refine ⟨_, _, rfl, _, _, _, rfl, ?_, ?_⟩ <;> rfl

/-- C3 (the code does not do this). The page that `CreateCollection` takes from
the allocator for the new collection's root node is not recorded in
`allocatedPageNums`. Run: `WriteTx` on `emptyStore`, `CreateCollection`,
`Rollback`. Page 2 was allocated during the transaction and is the new
collection's root; `Rollback` releases no page, the free set is empty
afterwards and the next page handed out is 3. -/
theorem CreateCollection_page_not_released :
    ∃ t db, emptyStore.WriteTx 7 = some (t, db) ∧
      ∃ c t1 db1, t.CreateCollection leafOps db [117] = some (.ok c, t1, db1) ∧
        c.root = 2 ∧
        Call.getNextPage 2 ∈ db1.calls ∧
        t1.allocatedPageNums = [] ∧
        pageReleases (t1.Rollback db1).2.calls = [] ∧
        (t1.Rollback db1).2.freelist = { maxPage := 2, releasedPages := [] } ∧
        (t1.Rollback db1).2.getNextPage.1 = 3 := by
  refine ⟨_, _, rfl, _, _, _, rfl, ?_, ?_, ?_, ?_, ?_, ?_⟩ <;> decide

/-- C7. Read-your-own-writes. On a transaction whose map is allocated,
`writeNode n` returns `n` tagged with the transaction, and `getNode` of
`n.pageNum` then returns that node with no error and leaves the database,
ghost log included, as it was (the node store is not read). If a second node
with the same page number is written afterwards, `getNode` returns the second
one. -/
theorem getNode_after_writeNode (t : tx) (m : NodeMap) (hm : t.dirtyNodes = some m)
    (n n2 : Node) (db : DB) :
    ∃ t1 t2, t.writeNode n = some ({ n with tx := some t.id }, t1) ∧
      t1.getNode db n.pageNum = (.ok { n with tx := some t.id }, db) ∧
      t1.writeNode n2 = some ({ n2 with tx := some t.id }, t2) ∧
      (n2.pageNum = n.pageNum →
        t2.getNode db n.pageNum = (.ok { n2 with tx := some t.id }, db)) := by
  refine ⟨{ t with dirtyNodes := some (m.insert n.pageNum { n with tx := some t.id }) },
    { t with dirtyNodes := some ((m.insert n.pageNum { n with tx := some t.id }).insert
        n2.pageNum { n2 with tx := some t.id }) }, ?_, ?_, ?_, ?_⟩
  · simp only [tx.writeNode, hm]
  · simp [tx.getNode, tx.dirty]
  · simp only [tx.writeNode]
  · intro hp
    simp [tx.getNode, tx.dirty, hp]

/-- Witness of `getNode_after_writeNode`: a transaction fresh from `newTx`. -/
theorem getNode_after_writeNode_witness :
    (newTx true 7).dirtyNodes = some ∅ ∧
    ∃ t1 t2, (newTx true 7).writeNode { NewEmptyNode with pageNum := 4 } =
        some ({ NewEmptyNode with pageNum := 4, tx := some 7 }, t1) ∧
      t1.getNode emptyStore 4 =
        (.ok { NewEmptyNode with pageNum := 4, tx := some 7 }, emptyStore) ∧
      t1.writeNode { NewEmptyNode with pageNum := 4, childNodes := [9] } =
        some ({ NewEmptyNode with pageNum := 4, childNodes := [9], tx := some 7 }, t2) ∧
      ((4 : Nat) = 4 → t2.getNode emptyStore 4 =
        (.ok { NewEmptyNode with pageNum := 4, childNodes := [9], tx := some 7 },
          emptyStore)) :=
  ⟨rfl, getNode_after_writeNode (newTx true 7) ∅ rfl { NewEmptyNode with pageNum := 4 }
    { NewEmptyNode with pageNum := 4, childNodes := [9] } emptyStore⟩

/-- C10. On a read transaction `CreateCollection` returns no collection and
`writeInsideReadTxErr`, `DeleteCollection` returns `writeInsideReadTxErr`, and
both leave the transaction and the database (node store, allocator, ghost log)
exactly as they were. -/
theorem write_inside_read_tx (ops : CollectionOps) (t : tx) (db : DB) (name : List Nat)
    (h : t.write = false) :
    t.CreateCollection ops db name = some (.error Err.writeInsideReadTxErr, t, db) ∧
    t.DeleteCollection ops db name = some (some Err.writeInsideReadTxErr, t, db) := by
  simp [tx.CreateCollection, tx.DeleteCollection, h]

/-- Witness of `write_inside_read_tx`: the transaction of `ReadTx`. -/
theorem write_inside_read_tx_witness :
    (emptyStore.ReadTx 3).1.write = false ∧
    (emptyStore.ReadTx 3).1.CreateCollection leafOps emptyStore [117] =
      some (.error Err.writeInsideReadTxErr, (emptyStore.ReadTx 3).1, emptyStore) :=
  ⟨rfl, (write_inside_read_tx leafOps (emptyStore.ReadTx 3).1 emptyStore [117] rfl).1⟩

/-- C8 (as stated, it fails). `Commit` and `Rollback` have no guard against a
transaction that is already finalized, and the lock has no owner. Run from
`emptyStore`: open A, roll A back, open B, roll A back a second time (this
releases the lock B holds), open C. Now B and C are both active and the lock is
held; the runtime reported no failure. -/
theorem two_active_write_transactions :
    ∃ s, (System.start emptyStore).run
        [Step.WriteTx, Step.Rollback 0, Step.WriteTx, Step.Rollback 0, Step.WriteTx] = some s ∧
      s.active = 2 ∧ s.db.rwlock.w = true ∧ s.db.fatal = false := by
  refine ⟨_, rfl, ?_, ?_, ?_⟩ <;> decide

/-- C8 (amended). From a database whose write lock is free, in every state
reached by the steps `WriteTx` (enabled only when the lock is free), `Commit`
and `Rollback`, the last two applied in any order to transactions that are
still active, at most one write transaction is active, and one is active
exactly when the write lock is held. -/
theorem write_exclusive (db : DB) (hfree : db.rwlock.w = false) (steps : List Step)
    (s : System) (hrun : (System.start db).runActive steps = some s) :
    s.active ≤ 1 ∧ (s.active = 1 ↔ s.db.rwlock.w = true) := by
  have h0 : Inv (System.start db) := by
    refine ⟨?_, Or.inr ⟨hfree, rfl⟩⟩
    intro h hh
    simp [System.start] at hh
  obtain ⟨_, hl⟩ := Inv_runActive steps h0 hrun
  rcases hl with ⟨hw, ha⟩ | ⟨hw, ha⟩
  · exact ⟨by omega, by simp [hw, ha]⟩
  · exact ⟨by omega, by simp [hw, ha]⟩

/-- Witness of `write_exclusive`: open A, commit it, open B, roll it back,
open C. -/
theorem write_exclusive_witness :
    emptyStore.rwlock.w = false ∧
    ∃ s, (System.start emptyStore).runActive
        [Step.WriteTx, Step.Commit 0, Step.WriteTx, Step.Rollback 1, Step.WriteTx] = some s ∧
      s.active ≤ 1 :=
  ⟨rfl, _, rfl, (write_exclusive emptyStore rfl
    [Step.WriteTx, Step.Commit 0, Step.WriteTx, Step.Rollback 1, Step.WriteTx] _ rfl).1⟩

/-- C9 (as stated, it fails). A second `Rollback` on a finalized transaction
runs `Unlock` again. Run from `emptyStore`: open A, roll A back, open B (the
lock is held for B), roll A back a second time: the lock is free although B
has not ended. Rolling A back a second time right away, with the lock free, is
a fatal runtime error; so is committing A a second time. -/
theorem second_Rollback_releases_lock :
    ∃ a db1, emptyStore.WriteTx 0 = some (a, db1) ∧
      ∃ b db3, (a.Rollback db1).2.WriteTx 1 = some (b, db3) ∧
        db3.rwlock.w = true ∧
        ((a.Rollback db1).1.Rollback db3).2.rwlock.w = false ∧
        (a.Rollback db1).2.fatal = false ∧
        ((a.Rollback db1).1.Rollback (a.Rollback db1).2).2.fatal = true ∧
        ((a.Rollback db1).1.Commit (a.Rollback db1).2).2.2.fatal = true := by
  refine ⟨_, _, rfl, _, _, rfl, ?_, ?_, ?_, ?_, ?_⟩ <;> decide

/-- C9 (amended). Let `t1` be a write transaction finalized by `Rollback` or by
a `Commit` that returned no error. On any database state, a second `Rollback`
or `Commit` of `t1` leaves the allocator as it is. The lock is not protected:
the second `Rollback` issues `Unlock` and nothing else, the second `Commit`
rewrites the freelist and, when that write succeeds, issues `Unlock`; that
`Unlock` clears the writer bit whoever holds the lock, and is a fatal runtime
error when the lock is free. -/
theorem second_finalize (t : tx) (db0 : DB) (h : t.write = true) (t1 : tx)
    (hfin : t1 = (t.Rollback db0).1 ∨
      ((t.Commit db0).1 = none ∧ t1 = (t.Commit db0).2.1))
    (db : DB) :
    (t1.Rollback db).2.freelist = db.freelist ∧
    (t1.Rollback db).2.calls = db.calls ++ [Call.Unlock] ∧
    (t1.Rollback db).2.rwlock = { db.rwlock with w := false } ∧
    (t1.Rollback db).2.fatal = (db.fatal || !db.rwlock.w) ∧
    (t1.Commit db).2.2.freelist = db.freelist ∧
    (∀ err, (t1.Commit db).1 = some err →
      (t1.Commit db).2.2.calls = db.calls ++ [Call.writeFreelist (some err)] ∧
      (t1.Commit db).2.2.rwlock = db.rwlock) ∧
    ((t1.Commit db).1 = none →
      (t1.Commit db).2.2.calls = db.calls ++ [Call.writeFreelist none, Call.Unlock] ∧
      (t1.Commit db).2.2.rwlock = { db.rwlock with w := false } ∧
      (t1.Commit db).2.2.fatal = (db.fatal || !db.rwlock.w)) := by
  have ht1 :
      t1 = { t with dirtyNodes := none, pagesToDelete := [], allocatedPageNums := [] } := by
    rcases hfin with hfin | ⟨he, hfin⟩
    · rw [hfin]; exact (Rollback_unlocks t db0 h).2
    · rw [hfin]; exact (Commit_ok_unlocks t db0 h he).2
  have hw1 : t1.write = true := by rw [ht1]; exact h
  have hd1 : t1.dirtyEntries = [] := by rw [ht1]; rfl
  have hp1 : t1.pagesToDelete = [] := by rw [ht1]
  have ha1 : t1.allocatedPageNums = [] := by rw [ht1]
  have hfc := writeFreelist_calls db
  have hff := writeFreelist_frame db
  have hC := Commit_write_cases t1 db hw1
  rw [hd1, hp1] at hC
  simp only [writeDirty, deleteAll, List.foldl_nil] at hC
  refine ⟨?_, ?_, ?_, ?_, ?_, ?_, ?_⟩
  · unfold tx.Rollback
    simp only [hw1, ha1, Bool.not_true, Bool.false_eq_true, if_false, releaseAll,
      List.foldl_nil]
    exact (Unlock_frame db).2.1
  · unfold tx.Rollback
    simp only [hw1, ha1, Bool.not_true, Bool.false_eq_true, if_false, releaseAll,
      List.foldl_nil]
    exact Unlock_calls db
  · unfold tx.Rollback
    simp only [hw1, ha1, Bool.not_true, Bool.false_eq_true, if_false, releaseAll,
      List.foldl_nil]
    exact Unlock_rwlock db
  · unfold tx.Rollback
    simp only [hw1, ha1, Bool.not_true, Bool.false_eq_true, if_false, releaseAll,
      List.foldl_nil]
    exact Unlock_fatal db
  · rcases hC with ⟨e, he, _⟩ | ⟨_, e, _, hc⟩ | ⟨_, _, hc⟩
    · cases he
    · rw [hc]; exact hff.2.2.2.2.1
    · rw [hc]; simp only [(Unlock_frame _).2.1, hff.2.2.2.2.1]
  · intro err he
    rcases hC with ⟨e, he2, _⟩ | ⟨_, e, he2, hc⟩ | ⟨_, _, hc⟩
    · cases he2
    · rw [hc] at he ⊢
      simp only [Option.some.injEq] at he
      subst he
      rw [hfc.2] at he2
      exact ⟨by simp only [hfc.1, he2], hff.1⟩
    · rw [hc] at he; cases he
  · intro he
    rcases hC with ⟨e, he2, _⟩ | ⟨_, e, _, hc⟩ | ⟨_, he2, hc⟩
    · cases he2
    · rw [hc] at he; cases he
    · rw [hc]
      rw [hfc.2] at he2
      refine ⟨?_, ?_, ?_⟩
      · simp only [Unlock_calls, hfc.1, he2, List.append_assoc]; rfl
      · simp only [Unlock_rwlock, hff.1]
      · simp only [Unlock_fatal, hff.1, hff.2.1]

/-- Witness of `second_finalize`: `stagedTx` rolled back on `lockedStore`, then
rolled back again on the resulting state. -/
theorem second_finalize_witness :
    stagedTx.write = true ∧
    ((stagedTx.Rollback lockedStore).1.Rollback (stagedTx.Rollback lockedStore).2).2.freelist =
      (stagedTx.Rollback lockedStore).2.freelist :=
  ⟨rfl, (second_finalize stagedTx lockedStore rfl (stagedTx.Rollback lockedStore).1
    (Or.inl rfl) (stagedTx.Rollback lockedStore).2).1⟩

end claims

/-! ## Staging operations, reads and collections -/

section staging

/-- C11. `deleteNode` appends `n.pageNum` to the end of `pagesToDelete` and
changes no other field of the transaction. It has no access to the database:
the node store and the allocator are as they were, and a `newNode` that
follows gets the same page and leaves the same database whether or not the
deletion was staged, so the staged page is not handed out again. -/
theorem deleteNode_appends (t : tx) (n : Node) (db : DB) (items : List Item)
    (childNodes : List pgnum) :
    (t.deleteNode n).pagesToDelete = t.pagesToDelete ++ [n.pageNum] ∧
    (t.deleteNode n).dirtyNodes = t.dirtyNodes ∧
    (t.deleteNode n).allocatedPageNums = t.allocatedPageNums ∧
    (t.deleteNode n).write = t.write ∧
    (t.deleteNode n).id = t.id ∧
    ((t.deleteNode n).newNode db items childNodes).1 = (t.newNode db items childNodes).1 ∧
    ((t.deleteNode n).newNode db items childNodes).2.2.freelist =
      (t.newNode db items childNodes).2.2.freelist ∧
    ((t.deleteNode n).newNode db items childNodes).2.2.calls =
      (t.newNode db items childNodes).2.2.calls :=
  ⟨rfl, rfl, rfl, rfl, rfl, rfl, rfl, rfl⟩

/-- C13. `newNode` returns the node with the given items and children, the
page number the allocator's `getNextPage` returned and the tag of this
transaction; it appends that page number to the end of `allocatedPageNums`,
leaves `dirtyNodes` and `pagesToDelete` as they were, and its only call is
that `getNextPage`: the node store's pages are untouched. -/
theorem newNode_spec (t : tx) (db : DB) (items : List Item) (childNodes : List pgnum) :
    (t.newNode db items childNodes).1 =
      { items := items, childNodes := childNodes, pageNum := db.getNextPage.1,
        tx := some t.id } ∧
    db.getNextPage.1 = db.freelist.getNextPage.1 ∧
    (t.newNode db items childNodes).2.1.allocatedPageNums =
      t.allocatedPageNums ++ [db.getNextPage.1] ∧
    (t.newNode db items childNodes).2.1.dirtyNodes = t.dirtyNodes ∧
    (t.newNode db items childNodes).2.1.pagesToDelete = t.pagesToDelete ∧
    (t.newNode db items childNodes).2.2.pages = db.pages ∧
    (t.newNode db items childNodes).2.2.calls =
      db.calls ++ [Call.getNextPage db.getNextPage.1] :=
  ⟨rfl, rfl, rfl, rfl, rfl, rfl, rfl⟩

/-- C14. For a page number that is not a key of `dirtyNodes`, `getNode` reads
through to the node store: when the store returns a node, `getNode` returns
that node tagged with this transaction and no error; when the store fails,
`getNode` returns no node and the store's error. `getNode` has no transaction
among its results: `dirtyNodes` is as it was. -/
theorem getNode_read_through (t : tx) (db : DB) (pageNum : pgnum)
    (h : t.dirty pageNum = none) :
    (∀ n db1, db.getNode pageNum = (.ok n, db1) →
      t.getNode db pageNum = (.ok { n with tx := some t.id }, db1)) ∧
    (∀ err db1, db.getNode pageNum = (.error err, db1) →
      t.getNode db pageNum = (.error err, db1)) := by
  refine ⟨?_, ?_⟩
  · intro n db1 hg
    simp only [tx.getNode, h, hg]
  · intro err db1 hg
    simp only [tx.getNode, h, hg]

/-- Witness of `getNode_read_through`: a fresh transaction reads the root node
of `emptyStore` at page 1. -/
theorem getNode_read_through_witness :
    (newTx false 3).dirty 1 = none ∧
    (newTx false 3).getNode emptyStore 1 =
      (.ok { NewEmptyNode with pageNum := 1, tx := some 3 },
        emptyStore.log (Call.getNode 1)) :=
  ⟨rfl, (getNode_read_through (newTx false 3) emptyStore 1 rfl).1 _ _ rfl⟩

/-- C19. `GetCollection` asks `Find` on the root collection (rooted at
`db.root`, bound to this transaction) for the name. When `Find` reports the
name absent it returns no collection and no error; when `Find` fails it
returns no collection and that error; otherwise it returns the collection
deserialized from the item, bound to this transaction. `GetCollection` assigns
to no field of the transaction. -/
theorem GetCollection_cases (ops : CollectionOps) (t : tx) (db : DB) (name : List Nat) :
    (∀ db1, ops.Find (t.getRootCollection db) t db name = (.ok none, db1) →
      t.GetCollection ops db name = (.ok none, db1)) ∧
    (∀ err db1, ops.Find (t.getRootCollection db) t db name = (.error err, db1) →
      t.GetCollection ops db name = (.error err, db1)) ∧
    (∀ item db1, ops.Find (t.getRootCollection db) t db name = (.ok (some item), db1) →
      t.GetCollection ops db name =
        (.ok (some { ops.deserialize item with tx := some t.id }), db1)) ∧
    (t.getRootCollection db).root = db.root ∧
    (t.getRootCollection db).tx = some t.id := by
  refine ⟨?_, ?_, ?_, rfl, rfl⟩
  · intro db1 hf
    simp only [tx.GetCollection, hf]
  · intro err db1 hf
    simp only [tx.GetCollection, hf]
  · intro item db1 hf
    simp only [tx.GetCollection, hf]

/-- Witness of `GetCollection_cases`: on `emptyStore` no collection is
called 117. -/
theorem GetCollection_cases_witness :
    leafOps.Find ((newTx false 3).getRootCollection emptyStore) (newTx false 3) emptyStore
      [117] = (.ok none, emptyStore.log (Call.getNode 1)) ∧
    (newTx false 3).GetCollection leafOps emptyStore [117] =
      (.ok none, emptyStore.log (Call.getNode 1)) :=
  ⟨rfl, (GetCollection_cases leafOps (newTx false 3) emptyStore [117]).1 _ rfl⟩

/-! ### The order of the calls of `Commit` -/

theorem pairwise_phase_const {k : Nat} {l : List Call} (h : ∀ c ∈ l, commitPhase c = k) :
    l.Pairwise (fun a b => commitPhase a ≤ commitPhase b) := by
  induction l with
  | nil => exact List.Pairwise.nil
  | cons a l ih =>
    refine List.Pairwise.cons ?_ (ih fun c hc => h c (List.mem_cons_of_mem _ hc))
    intro b hb
    rw [h a (List.mem_cons_self _ _), h b (List.mem_cons_of_mem _ hb)]

theorem pairwise_phase_append {k : Nat} {l1 l2 : List Call}
    (h1 : l1.Pairwise (fun a b => commitPhase a ≤ commitPhase b))
    (h2 : l2.Pairwise (fun a b => commitPhase a ≤ commitPhase b))
    (hk1 : ∀ a ∈ l1, commitPhase a ≤ k) (hk2 : ∀ b ∈ l2, k ≤ commitPhase b) :
    (l1 ++ l2).Pairwise (fun a b => commitPhase a ≤ commitPhase b) :=
  List.pairwise_append.mpr ⟨h1, h2, fun a ha b hb => Nat.le_trans (hk1 a ha) (hk2 b hb)⟩

theorem writeNodeCalls_phase (db : DB) (n : Node) :
    ∀ c ∈ writeNodeCalls db n, commitPhase c = 0 := by
  intro c hc
  unfold writeNodeCalls at hc
  by_cases hp : n.pageNum = 0
  · simp only [hp, if_true, List.singleton_append, List.mem_cons, List.mem_singleton,
      List.not_mem_nil, or_false] at hc
    rcases hc with hc | hc <;> subst hc <;> rfl
  · simp only [hp, if_false, List.nil_append, List.mem_singleton] at hc
    subst hc; rfl

theorem writeDirty_phase (l : List (Σ _ : pgnum, Node)) (db : DB) :
    ∃ cs, (writeDirty db l).2.calls = db.calls ++ cs ∧ ∀ c ∈ cs, commitPhase c = 0 := by
  induction l generalizing db with
  | nil => exact ⟨[], by simp [writeDirty], by simp⟩
  | cons e rest ih =>
    rw [writeDirty_cons]
    cases hres : (db.writeNode e.2).1 with
    | error err => exact ⟨writeNodeCalls db e.2, writeNode_calls db e.2, writeNodeCalls_phase db e.2⟩
    | ok m =>
      obtain ⟨cs, h1, h2⟩ := ih (db.writeNode e.2).2
      refine ⟨writeNodeCalls db e.2 ++ cs, ?_, ?_⟩
      · simp only [h1, writeNode_calls, List.append_assoc]
      · intro c hc
        rcases List.mem_append.mp hc with hc | hc
        · exact writeNodeCalls_phase db e.2 c hc
        · exact h2 c hc

theorem deleteCalls_phase (ps : List pgnum) :
    ∀ c ∈ ps.flatMap (fun p => [Call.deleteNode p, Call.releasePage p]), commitPhase c = 1 := by
  intro c hc
  simp only [List.mem_flatMap, List.mem_cons, List.mem_singleton, List.not_mem_nil,
    or_false] at hc
  obtain ⟨p, _, hc | hc⟩ := hc <;> subst hc <;> rfl

/-- C16. The calls `Commit` on a write transaction issues are in phase order:
the node writes (with the page allocations they need) come first, then the
`deleteNode`/`releasePage` calls for `pagesToDelete`, then the freelist write,
then `Unlock`; no call of an earlier phase follows a call of a later one.
`Commit` issues no root-pointer update at all: `root` is as it was. -/
theorem Commit_order (t : tx) (db : DB) (h : t.write = true) :
    ∃ cs, (t.Commit db).2.2.calls = db.calls ++ cs ∧
      cs.Pairwise (fun a b => commitPhase a ≤ commitPhase b) ∧
      (t.Commit db).2.2.root = db.root := by
  obtain ⟨cs, h1, hph⟩ := writeDirty_phase t.dirtyEntries db
  obtain ⟨_, _, _, _, _, _, _, _, hroot, _, _⟩ := writeDirty_spec t.dirtyEntries db
  have hd := deleteAll_spec t.pagesToDelete (writeDirty db t.dirtyEntries).2
  have hfc := writeFreelist_calls (deleteAll (writeDirty db t.dirtyEntries).2 t.pagesToDelete)
  have hff := writeFreelist_frame (deleteAll (writeDirty db t.dirtyEntries).2 t.pagesToDelete)
  have hdp := deleteCalls_phase t.pagesToDelete
  have p0 := pairwise_phase_const hph
  have p1 := pairwise_phase_const hdp
  have p01 : (cs ++ t.pagesToDelete.flatMap fun p =>
      [Call.deleteNode p, Call.releasePage p]).Pairwise
      (fun a b => commitPhase a ≤ commitPhase b) :=
    pairwise_phase_append p0 p1 (fun a ha => Nat.le_of_eq (hph a ha))
      (fun b hb => by rw [hdp b hb]; exact Nat.zero_le 1)
  have h01 : ∀ a ∈ cs ++ t.pagesToDelete.flatMap (fun p =>
      [Call.deleteNode p, Call.releasePage p]), commitPhase a ≤ 1 := by
    intro a ha
    rcases List.mem_append.mp ha with ha | ha
    · rw [hph a ha]; exact Nat.zero_le 1
    · rw [hdp a ha]
  have p012 : ∀ e, ((cs ++ t.pagesToDelete.flatMap fun p =>
      [Call.deleteNode p, Call.releasePage p]) ++ [Call.writeFreelist e]).Pairwise
      (fun a b => commitPhase a ≤ commitPhase b) := by
    intro e
    refine pairwise_phase_append p01 (List.pairwise_singleton _ _)
      (fun a ha => Nat.le_trans (h01 a ha) (Nat.le_refl 1)) ?_
    intro b hb
    simp only [List.mem_singleton] at hb
    subst hb; exact Nat.le_succ 1
  rcases Commit_write_cases t db h with ⟨e, _, hc⟩ | ⟨_, e, _, hc⟩ | ⟨_, _, hc⟩
  · rw [hc]
    exact ⟨cs, h1, p0, hroot⟩
  · rw [hc]
    refine ⟨(cs ++ t.pagesToDelete.flatMap fun p =>
      [Call.deleteNode p, Call.releasePage p]) ++ [Call.writeFreelist
        (deleteAll (writeDirty db t.dirtyEntries).2 t.pagesToDelete).nextFault.1],
      ?_, p012 _, ?_⟩
    · simp only [hfc.1, hd.1, h1, List.append_assoc]
    · simp only [hff.2.2.1, hd.2.2.2.2.2.2.2.1, hroot]
  · rw [hc]
    refine ⟨((cs ++ t.pagesToDelete.flatMap fun p =>
      [Call.deleteNode p, Call.releasePage p]) ++ [Call.writeFreelist
        (deleteAll (writeDirty db t.dirtyEntries).2 t.pagesToDelete).nextFault.1]) ++
      [Call.Unlock], ?_, ?_, ?_⟩
    · simp only [Unlock_calls, hfc.1, hd.1, h1, List.append_assoc]
    · refine pairwise_phase_append (p012 _) (List.pairwise_singleton _ _) (k := 2) ?_ ?_
      · intro a ha
        rcases List.mem_append.mp ha with ha | ha
        · exact Nat.le_trans (h01 a ha) (Nat.le_succ 1)
        · simp only [List.mem_singleton] at ha
          subst ha; exact Nat.le_refl 2
      · intro b hb
        simp only [List.mem_singleton] at hb
        subst hb; exact Nat.le_succ 2
    · simp only [(Unlock_frame _).2.2.2.1, hff.2.2.1, hd.2.2.2.2.2.2.2.1, hroot]

/-- Witness of `Commit_order`: the calls of a successful `Commit` of
`stagedTx`. -/
theorem Commit_order_witness :
    stagedTx.write = true ∧
    ∃ cs, (stagedTx.Commit lockedStore).2.2.calls = lockedStore.calls ++ cs ∧
      cs.Pairwise (fun a b => commitPhase a ≤ commitPhase b) ∧
      (stagedTx.Commit lockedStore).2.2.root = lockedStore.root :=
  ⟨rfl, Commit_order stagedTx lockedStore rfl⟩

/-- C17. When `Commit` on a write transaction returns an error, the
transaction is exactly what it was before the call: `dirtyNodes`,
`pagesToDelete` and `allocatedPageNums` are not cleared. A `Rollback` issued
afterwards releases every element of `allocatedPageNums`, in order, then
unlocks, and the pages end up in the allocator's free set. -/
theorem Commit_error_keeps_staging (t : tx) (db : DB) (h : t.write = true) (err : Err)
    (he : (t.Commit db).1 = some err) :
    (t.Commit db).2.1 = t ∧
    ((t.Commit db).2.1.Rollback (t.Commit db).2.2).2.calls =
      (t.Commit db).2.2.calls ++ t.allocatedPageNums.map Call.releasePage ++ [Call.Unlock] ∧
    ((t.Commit db).2.1.Rollback (t.Commit db).2.2).2.freelist.releasedPages =
      t.allocatedPageNums.reverse ++ (t.Commit db).2.2.freelist.releasedPages := by
  obtain ⟨_, _, ht, _⟩ := Commit_error_keeps_lock t db h err he
  have hr := releaseAll_spec t.allocatedPageNums (t.Commit db).2.2
  have hu := Unlock_frame (releaseAll (t.Commit db).2.2 t.allocatedPageNums)
  refine ⟨ht, ?_, ?_⟩
  · rw [ht]
    unfold tx.Rollback
    simp only [h, Bool.not_true, Bool.false_eq_true, if_false]
    rw [Unlock_calls, hr.1]
  · rw [ht]
    unfold tx.Rollback
    simp only [h, Bool.not_true, Bool.false_eq_true, if_false]
    rw [hu.2.1, hr.2.1]

/-- Witness of `Commit_error_keeps_staging`: the `Commit` of `stagedTx` fails
at its node write and leaves it as it was. -/
theorem Commit_error_keeps_staging_witness :
    stagedTx.write = true ∧
    (stagedTx.Commit failingLocked).1 = some (Err.IOError 5) ∧
    (stagedTx.Commit failingLocked).2.1 = stagedTx :=
  ⟨rfl, by decide,
    (Commit_error_keeps_staging stagedTx failingLocked rfl (Err.IOError 5) (by decide)).1⟩

/-- C15 (the code does not do this). `ReadTx` of db.go takes no lock, yet the
read branch of `Commit` and of `Rollback` calls `RUnlock`. Run on `emptyStore`:
`ReadTx` leaves the lock and the call log as they were; the `Commit`, and
likewise the `Rollback`, of that transaction issues an `RUnlock` on a lock no
reader holds, which is a fatal runtime error. -/
theorem ReadTx_then_RUnlock :
    (emptyStore.ReadTx 3).2.rwlock = emptyStore.rwlock ∧
    (emptyStore.ReadTx 3).2.calls = [] ∧
    ((emptyStore.ReadTx 3).1.Commit (emptyStore.ReadTx 3).2).1 = none ∧
    ((emptyStore.ReadTx 3).1.Commit (emptyStore.ReadTx 3).2).2.2.calls = [Call.RUnlock] ∧
    emptyStore.fatal = false ∧
    ((emptyStore.ReadTx 3).1.Commit (emptyStore.ReadTx 3).2).2.2.fatal = true ∧
    ((emptyStore.ReadTx 3).1.Rollback (emptyStore.ReadTx 3).2).2.calls = [Call.RUnlock] ∧
    ((emptyStore.ReadTx 3).1.Rollback (emptyStore.ReadTx 3).2).2.fatal = true := by
  refine ⟨?_, ?_, ?_, ?_, ?_, ?_, ?_, ?_⟩ <;> decide

/-- C18 (the code does not do this on one path). Run on `failingStore`, whose
next page write fails: `WriteTx`, `newNode` (gets page 2), `deleteNode` of that
node, `Commit`, `Rollback`. `Commit` releases page 2 in its loop over
`pagesToDelete`, then its freelist write fails and it returns the error with
the staging lists intact; `Rollback` releases page 2 again from
`allocatedPageNums`. Page 2 is in the free set twice and the next two
`getNextPage` calls both return it. -/
theorem failed_Commit_then_Rollback_releases_twice :
    ∃ t db, failingStore.WriteTx 7 = some (t, db) ∧
      (t.newNode db [] []).1.pageNum = 2 ∧
      (((t.newNode db [] []).2.1.deleteNode (t.newNode db [] []).1).Commit
        (t.newNode db [] []).2.2).1 = some (Err.IOError 5) ∧
      pageReleases (((t.newNode db [] []).2.1.deleteNode (t.newNode db [] []).1).Commit
        (t.newNode db [] []).2.2).2.2.calls = [2] ∧
      pageReleases (failedThenRollback t db).calls = [2, 2] ∧
      (failedThenRollback t db).freelist.releasedPages = [2, 2] ∧
      (failedThenRollback t db).getNextPage.1 = 2 ∧
      (failedThenRollback t db).getNextPage.2.getNextPage.1 = 2 := by
  refine ⟨_, _, rfl, ?_, ?_, ?_, ?_, ?_, ?_, ?_⟩ <;> decide

end staging

/-! ## The round trip of a collection -/

section roundtrip

theorem find_inserted (l : List Item) (k v : List Nat) :
    (l.filter (fun i : Item => decide (i.key < k)) ++ [({ key := k, value := v } : Item)] ++
      l.filter (fun i : Item => decide (k < i.key))).find?
        (fun i : Item => decide (i.key = k)) = some { key := k, value := v } := by
  rw [List.append_assoc, List.find?_append]
  have h1 : (l.filter (fun i : Item => decide (i.key < k))).find?
      (fun i : Item => decide (i.key = k)) = none := by
    rw [List.find?_eq_none]
    intro x hx
    simp only [List.mem_filter, decide_eq_true_eq] at hx
    simp only [decide_eq_true_eq]
    exact ne_of_lt hx.2
  rw [h1]
  simp

/-- A successful write of a node that has no page yet: it gets the page the
allocator hands out. -/
theorem writeNode_ok_zero (db : DB) (n : Node) (h : db.AllWritesSucceed) (hp : n.pageNum = 0) :
    (db.writeNode n).1 = .ok { n with pageNum := db.freelist.getNextPage.1, tx := none } ∧
    (db.writeNode n).2.pages = Function.update db.pages db.freelist.getNextPage.1
      (some { n with pageNum := db.freelist.getNextPage.1, tx := none }) ∧
    (db.writeNode n).2.root = db.root ∧
    (db.writeNode n).2.AllWritesSucceed := by
  unfold DB.writeNode DB.AllWritesSucceed DB.getNextPage
  simp only [hp, if_true]
  cases hf : db.faults with
  | nil => simp [DB.nextFault, hf]
  | cons e rest =>
    have he : e = none := h e (by rw [hf]; exact List.mem_cons_self _ _)
    subst he
    simp [DB.nextFault, hf]
    intro x hx
    exact h x (by rw [hf]; exact List.mem_cons_of_mem _ hx)

theorem filter_disjoint_length {α : Type} (p q : α → Bool) (l : List α)
    (hpq : ∀ x, ¬(p x = true ∧ q x = true)) :
    (l.filter p).length + (l.filter q).length ≤ l.length := by
  induction l with
  | nil => simp
  | cons x l ih =>
    have hx := hpq x
    cases hp : p x <;> cases hq : q x <;> simp_all [List.filter_cons] <;> omega

theorem insertItem_length (items : List Item) (key value : List Nat) :
    (insertItem items key value).length ≤ items.length + 1 := by
  have h := filter_disjoint_length (fun i : Item => decide (i.key < key))
    (fun i : Item => decide (key < i.key)) items
    (fun x hx => by
      simp only [decide_eq_true_eq] at hx
      exact lt_asymm hx.1 hx.2)
  simp only [insertItem, List.length_append, List.length_singleton]
  omega

/-- C12 (as stated, it fails). `tx.go` never assigns `db.root`: the root the
`Put` of `createCollection` leaves in the root collection object is dropped.
Run on `twoCollections` with nodes of capacity 2: the root collection's node is
full, so `CreateCollection` of the name 30 splits it and puts a new root at
page 6; `CreateCollection` and `Commit` succeed; `db.root` is still page 1, and
`GetCollection` of 30 in a fresh transaction returns no collection and no
error, although the entry is found from page 6. -/
theorem root_split_loses_collection :
    ∃ c t1 db1, (newTx true 7).CreateCollection (treeOps 2 2) twoCollections [30] =
        some (.ok c, t1, db1) ∧
      c = { name := [30], root := 4, tx := some 7 } ∧
      ∃ t2 db2, t1.Commit db1 = (none, t2, db2) ∧
        db2.root = 1 ∧
        ((newTx false 8).GetCollection (treeOps 2 2) db2 [30]).1 = .ok none ∧
        roundTrip (treeOps 2 2) twoCollections 7 8 false [30] = none ∧
        (treeFindFrom (newTx false 8) [30] 2 db2 6).1 =
          .ok (some { key := [30], value := [4, 30] }) := by
  refine ⟨_, _, _, rfl, ?_, _, _, rfl, ?_, ?_, ?_, ?_⟩ <;> rfl

/-- C12 (amended). Round trip when the root collection's root node is a leaf
with room for one more entry, so that `Put` rewrites it in place. On a store
whose root page (not page 0) holds that node and whose writes succeed, for
every name and every node capacity and height bound of the tree:
`CreateCollection name` in a new write transaction succeeds, `Commit`
succeeds, and `GetCollection name` in a fresh transaction (read or write)
returns a collection with that name whose root is the page the allocator
handed out for the node that `CreateCollection` wrote, bound to the fresh
transaction. -/
theorem CreateCollection_round_trip (maxItems height : Nat) (db : DB) (id id2 : Nat)
    (w : Bool) (name : List Nat) (rn : Node) (hheight : 0 < height) (hroot : db.root ≠ 0)
    (hpage : db.pages db.root = some rn) (hnum : rn.pageNum = db.root)
    (hleaf : rn.childNodes = []) (hroom : rn.items.length < maxItems)
    (hok : db.AllWritesSucceed) :
    roundTrip (treeOps maxItems height) db id id2 w name =
      some ({ name := name, root := db.freelist.getNextPage.1, tx := some id },
        { name := name, root := db.freelist.getNextPage.1, tx := some id2 }) ∧
    (db.writeNode NewEmptyNode).1 =
      .ok { NewEmptyNode with pageNum := db.freelist.getNextPage.1 } := by
  obtain ⟨fuel, rfl⟩ : ∃ fuel, height = fuel + 1 := ⟨height - 1, by omega⟩
  obtain ⟨hA1, hA2, hA3, hA4⟩ := writeNode_ok_zero db NewEmptyNode hok rfl
  refine ⟨?_, hA1⟩
  rcases hA : db.writeNode NewEmptyNode with ⟨rA, dbA⟩
  rw [hA] at hA1 hA2 hA3 hA4
  simp only at hA1 hA2 hA3 hA4
  subst hA1
  have hrn : ∃ rn2 : Node, dbA.pages db.root = some rn2 ∧ rn2.pageNum = db.root ∧
      rn2.childNodes = [] ∧ rn2.items.length < maxItems := by
    rw [hA2]
    by_cases hpr : db.root = db.freelist.getNextPage.1
    · refine ⟨_, by rw [hpr, Function.update_same], hpr.symm, rfl, ?_⟩
      exact Nat.lt_of_le_of_lt (Nat.zero_le _) hroom
    · exact ⟨rn, by rw [Function.update_noteq hpr, hpage], hnum, hleaf, hroom⟩
  obtain ⟨rn2, hrn1, hrn2, hrn3, hrn4⟩ := hrn
  have hlen0 := insertItem_length rn2.items name (db.freelist.getNextPage.1 :: name)
  have hfind0 := find_inserted rn2.items name (db.freelist.getNextPage.1 :: name)
  obtain ⟨its, hits⟩ : ∃ its : List Item,
      insertItem rn2.items name (db.freelist.getNextPage.1 :: name) = its := ⟨_, rfl⟩
  have hlen : its.length ≤ maxItems := by rw [← hits]; omega
  have hfind : its.find? (fun i : Item => decide (i.key = name)) =
      some { key := name, value := db.freelist.getNextPage.1 :: name } := by
    rw [← hits]; exact hfind0
  have hC : (newTx true id).CreateCollection (treeOps maxItems (fuel + 1)) db name =
      some (.ok { name := name, root := db.freelist.getNextPage.1, tx := some id },
        ⟨some (AList.singleton db.root ⟨its, rn2.childNodes, db.root, some id⟩), [], [],
          true, id⟩,
        dbA.log (Call.getNode db.root)) := by
    simp only [tx.CreateCollection, newTx, hA, Bool.not_true, Bool.false_eq_true, if_false]
    simp [tx.createCollection, treeOps, leafOps, treePut, treeInsert, stageNode,
      tx.getRootCollection, tx.getNode, tx.dirty, DB.getNode, hrn1, tx.writeNode,
      newEmptyCollection, hA3, hrn2, hrn3, hits, hlen]
  have hok1 : (dbA.log (Call.getNode db.root)).AllWritesSucceed := hA4
  obtain ⟨hw1, hw2, hw3, hw4⟩ := writeNode_ok (dbA.log (Call.getNode db.root))
    ⟨its, rn2.childNodes, db.root, some id⟩ hok1 hroot
  rcases hB : (dbA.log (Call.getNode db.root)).writeNode
    ⟨its, rn2.childNodes, db.root, some id⟩ with ⟨rB, dbB⟩
  rw [hB] at hw1 hw2 hw3 hw4
  simp only at hw1 hw2 hw3 hw4
  subst hw1
  have hfl := writeFreelist_calls dbB
  have hff := writeFreelist_frame dbB
  have hnf := (nextFault_of_succeed hw4).1
  rcases hF : dbB.writeFreelist with ⟨rF, dbF⟩
  rw [hF] at hfl hff
  simp only at hfl hff
  have hrF : rF = none := by rw [hfl.2, hnf]
  subst hrF
  have hCm : (⟨some (AList.singleton db.root ⟨its, rn2.childNodes, db.root, some id⟩), [], [],
      true, id⟩ : tx).Commit (dbA.log (Call.getNode db.root)) =
        (none, ⟨none, [], [], true, id⟩, dbF.Unlock) := by
    simp [tx.Commit, tx.dirtyEntries, writeDirty, hB, deleteAll, hF]
  have hP2 : dbF.Unlock.pages db.root = some ⟨its, rn2.childNodes, db.root, none⟩ := by
    rw [(Unlock_frame dbF).1, hff.2.2.2.1, hw2, Function.update_same]
  have hR2 : dbF.Unlock.root = db.root := by
    rw [(Unlock_frame dbF).2.2.2.1, hff.2.2.1, hw3, log_root, hA3]
  have hG : (newTx w id2).GetCollection (treeOps maxItems (fuel + 1)) dbF.Unlock name =
      (.ok (some { name := name, root := db.freelist.getNextPage.1, tx := some id2 }),
        dbF.Unlock.log (Call.getNode db.root)) := by
    simp [tx.GetCollection, treeOps, leafOps, treeFind, treeFindFrom,
      tx.getRootCollection, tx.getNode, tx.dirty,
      newTx, DB.getNode, hR2, hP2, hfind, newEmptyCollection]
  unfold roundTrip
  rw [hC]
  simp only
  rw [hCm]
  simp only
  rw [hG]

/-- Witness of `CreateCollection_round_trip`: with nodes of capacity 3 the
root node of `twoCollections` has room; the collection named 30 gets page 4
and is found again. -/
theorem CreateCollection_round_trip_witness :
    (0 : Nat) < 2 ∧ twoCollections.root ≠ 0 ∧ twoCollections.AllWritesSucceed ∧
    roundTrip (treeOps 3 2) twoCollections 7 8 false [30] =
      some ({ name := [30], root := 4, tx := some 7 },
        { name := [30], root := 4, tx := some 8 }) :=
  ⟨by decide, by decide, by simp [DB.AllWritesSucceed, twoCollections],
    (CreateCollection_round_trip 3 2 twoCollections 7 8 false [30]
      { NewEmptyNode with
        pageNum := 1
        items := [{ key := [10], value := [2, 10] }, { key := [20], value := [3, 20] }] }
      (by decide) (by decide) rfl rfl rfl (by decide)
      (by simp [DB.AllWritesSucceed, twoCollections])).1⟩

end roundtrip

end LibraDB
